import Mathlib

/-!
Verification of the Megascans asset-pipeline scripts (`MegascansData.py`,
`Utilities.py`, `MegascansBridge.py`).  The Python data layer is shallowly
embedded: JSON values become the inductive `JValue`, the filesystem becomes an
explicit list of existing paths plus a content map, Python exceptions become an
`Except PyErr` result, and Python dicts (which preserve insertion order)
become association lists.  Modelling conventions, stated once here:

* Paths are plain strings; `Path(a) / b` followed by `.as_posix()` is modelled
  as `a ++ "/" ++ b` (POSIX separators throughout, as the scripts assume).
* A Python `TypeError` and `AttributeError` arising from subscripting or
  iterating a JSON value of the wrong shape are both modelled as errors
  (`PyErr.typeError` / `PyErr.attributeError`); no claim distinguishes the two.
* String-typed manifest and sidecar fields (`name`, `type`, `id`, `uri`,
  `resolution`, `colorSpace`) are extracted with `JValue.asStr`; non-string
  values there are modelled as a `typeError`.
* Character case maps (`str.lower`, `str.upper`) are modelled ASCII-wise,
  which is exact for the ASCII file names the scripts match on.
* `set` accumulation (`formats`) is modelled as a duplicate-free list in
  insertion order; only its membership is ever claimed.
-/

/-- JSON values as loaded by `json.load`. -/
inductive JValue where
  | null : JValue
  | bool (b : Bool) : JValue
  | num (n : Int) : JValue
  | str (s : String) : JValue
  | arr (elems : List JValue) : JValue
  | obj (fields : List (String × JValue)) : JValue

/-- Python exceptions that the embedded code can raise. -/
inductive PyErr where
  | keyError (k : String) : PyErr
  | indexError : PyErr
  | typeError : PyErr
  | attributeError : PyErr
  | valueError (msg : String) : PyErr
  | fileNotFoundError (msg : String) : PyErr
deriving Repr, DecidableEq

/-- Filesystem model: the list of paths that exist, and the parsed JSON content
of the files the scripts open (consulted only at paths that exist). -/
structure FS where
  files : List String
  json : String → JValue

/-- Existence test (`Path.exists` / `os.path.isfile`). -/
def FS.pexists (fs : FS) (p : String) : Bool := fs.files.contains p

/-- Python truthiness of a JSON value. -/
def truthy : JValue → Bool
  | .null => false
  | .bool b => b
  | .num n => n != 0
  | .str s => s != ""
  | .arr xs => !xs.isEmpty
  | .obj fs => !fs.isEmpty

/-- Truthiness of `dict.get`'s result (`None` when the key is absent). -/
def truthyOpt : Option JValue → Bool
  | none => false
  | some v => truthy v

/-- First binding of a key in an association list (JSON objects have unique
keys, so first-match lookup agrees with `json.load`'s dict). -/
def assocLookup : List (String × JValue) → String → Option JValue
  | [], _ => none
  | (k', v) :: rest, k => if k' = k then some v else assocLookup rest k

/-- The `d[k]` subscript: `KeyError` when absent, `TypeError` on a non-object. -/
def JValue.getItem : JValue → String → Except PyErr JValue
  | .obj fields, k =>
    match assocLookup fields k with
    | some v => .ok v
    | none => .error (.keyError k)
  | _, _ => .error .typeError

/-- The `d.get(k)` method: `AttributeError` on a non-object. -/
def JValue.pyGet : JValue → String → Except PyErr (Option JValue)
  | .obj fields, k => .ok (assocLookup fields k)
  | _, _ => .error .attributeError

/-- The `k in d` test on an object. -/
def JValue.hasKey : JValue → String → Bool
  | .obj fields, k => (assocLookup fields k).isSome
  | _, _ => false

/-- Coercion of a JSON value to a string (`TypeError` otherwise). -/
def JValue.asStr : JValue → Except PyErr String
  | .str s => .ok s
  | _ => .error .typeError

/-- Coercion of a JSON value to a list (`TypeError` otherwise; iterating a
non-array value is modelled as a `TypeError`). -/
def JValue.asArr : JValue → Except PyErr (List JValue)
  | .arr xs => .ok xs
  | _ => .error .typeError

/-- Path join, `(Path(a) / b).as_posix()`. -/
def pjoin (a b : String) : String := a ++ "/" ++ b

/-- Final component of a path (`Path.name`). -/
def pathName (p : String) : String :=
  String.mk ((p.data.reverse.takeWhile (fun c => c ≠ '/')).reverse)

/-- File extension with the dot (`Path.suffix`): the part of the final
component after its last dot, empty when there is no dot, the dot is the
first character, or the dot is the last character. -/
def pathSuffix (p : String) : String :=
  let name := (pathName p).data
  let rev := name.reverse
  let extRev := rev.takeWhile (fun c => c ≠ '.')
  match rev.dropWhile (fun c => c ≠ '.') with
  | [] => ""
  | _ :: before =>
    if extRev.isEmpty then ""
    else if before.isEmpty then ""
    else String.mk ('.' :: extRev.reverse)

/-- The `str.lstrip(".")` call: drop leading dots. -/
def lstripDots (s : String) : String :=
  String.mk (s.data.dropWhile (fun c => c = '.'))

/-- ASCII-wise `str.lower`. -/
def pyLower (s : String) : String := String.mk (s.data.map Char.toLower)

/-- ASCII-wise `str.upper`. -/
def pyUpper (s : String) : String := String.mk (s.data.map Char.toUpper)

/-- Whitespace characters `str.split()` splits on. -/
def isPySpace (c : Char) : Bool :=
  c = ' ' || c = '\t' || c = '\n' || c = '\x0d' || c = '\x0b' || c = '\x0c'

/-- Words of a character list: maximal runs of non-whitespace characters,
the result of `str.split()` with no arguments.  The accumulator carries the
current word reversed. -/
def pyWords : List Char → List Char → List String
  | [], acc => if acc.isEmpty then [] else [String.mk acc.reverse]
  | c :: cs, acc =>
    if isPySpace c then
      if acc.isEmpty then pyWords cs [] else String.mk acc.reverse :: pyWords cs []
    else pyWords cs (c :: acc)

/-- The `"_".join(s.split())` normalization: whitespace runs become single
underscores and outer whitespace is dropped. -/
def normalizeName (s : String) : String :=
  String.intercalate "_" (pyWords s.data [])

/-- The part of `s` after its last underscore, `none` when `s` has no
underscore — the `s.rsplit("_", maxsplit=1)[1]` access, whose `none` case is
Python's `IndexError`. -/
def afterLastUnderscore (s : String) : Option String :=
  if s.data.contains '_' then
    some (String.mk ((s.data.reverse.takeWhile (fun c => c ≠ '_')).reverse))
  else none

/-- The `s.split(".")[0]` prefix: characters before the first dot. -/
def takeBeforeDot (s : String) : String :=
  String.mk (s.data.takeWhile (fun c => c ≠ '.'))

/-- Substring containment, the Python `needle in hay` test on strings. -/
def strContains (hay needle : String) : Bool :=
  hay.data.tails.any (fun t => needle.data.isPrefixOf t)

/-- Leftmost match of the regex `(high|lod\d)` in a character list:
at each position `high` is tried, then `lod` followed by one digit. -/
def lodMatchAt : List Char → Option String
  | 'h' :: 'i' :: 'g' :: 'h' :: _ => some "high"
  | 'l' :: 'o' :: 'd' :: d :: _ =>
    if d.isDigit then some (String.mk ['l', 'o', 'd', d]) else none
  | _ => none

/-- First match of `(high|lod\d)` scanning left to right —
`re.findall(r"(high|lod\d)", s)[0]` when a match exists. -/
def findFirstLod : List Char → Option String
  | [] => none
  | c :: rest =>
    match lodMatchAt (c :: rest) with
    | some m => some m
    | none => findFirstLod rest

/-- Insertion-order dictionary update, `d[k] = v`: an existing binding is
replaced in place, a new key is appended. -/
def dictAssign {β : Type} : List (String × β) → String → β → List (String × β)
  | [], k, v => [(k, v)]
  | (k', v') :: rest, k, v =>
    if k' = k then (k, v) :: rest else (k', v') :: dictAssign rest k v

/-- The `d.setdefault(k, []).append(v)` update on a dict of lists: append `v`
to the list at `k`, creating the binding at the end when `k` is new. -/
def appendAt {β : Type} : List (String × List β) → String → β → List (String × List β)
  | [], k, v => [(k, [v])]
  | (k', vs) :: rest, k, v =>
    if k' = k then (k', vs ++ [v]) :: rest else (k', vs) :: appendAt rest k v

/-- Set insertion modelled on a duplicate-free list (`set.add`). -/
def setAdd (s : List String) (x : String) : List String :=
  if s.contains x then s else s ++ [x]

/-- One texture channel's normalized record: declared type, color space, and
the per-resolution file-path lists. -/
structure TxEntry where
  type : String
  colorSpace : String
  resolution : List (String × List String)
deriving Repr, DecidableEq

/-- Normalized texture dictionary: channel name to `TxEntry`. -/
abbrev TxDict := List (String × TxEntry)

/-- Normalized LOD dictionary: LOD label to mesh file paths. -/
abbrev MeshDict := List (String × List String)

/-- The `tx_dict.setdefault(name, {...}); tx_dict[name]["resolution"]
.setdefault(resolution, []).append(path)` update of `resolve_3d_tx_maps`:
an existing channel keeps its stored type and color space and gains the path
under `res`; a new channel is appended with the given fields. -/
def txInsert : TxDict → String → String → String → String → String → TxDict
  | [], name, ty, cs, res, path => [(name, ⟨ty, cs, [(res, [path])]⟩)]
  | (n, e) :: rest, name, ty, cs, res, path =>
    if n = name then (n, ⟨e.type, e.colorSpace, appendAt e.resolution res path⟩) :: rest
    else (n, e) :: txInsert rest name ty cs res path

/-- Loop body of `resolve_3d_tx_maps` over the sidecar's `maps` list: a map
whose file is missing is skipped before its other fields are read. -/
def resolve_3d_tx_maps_go (fs : FS) (apath : String) :
    List JValue → TxDict → Except PyErr TxDict
  | [], acc => .ok acc
  | m :: rest, acc =>
    match (m.getItem "uri").bind JValue.asStr with
    | .error e => .error e
    | .ok uri =>
      if fs.pexists (pjoin apath uri) then
        match (m.getItem "name").bind JValue.asStr with
        | .error e => .error e
        | .ok name =>
          match (m.getItem "resolution").bind JValue.asStr with
          | .error e => .error e
          | .ok res =>
            match (m.getItem "type").bind JValue.asStr with
            | .error e => .error e
            | .ok ty =>
              match (m.getItem "colorSpace").bind JValue.asStr with
              | .error e => .error e
              | .ok cs =>
                resolve_3d_tx_maps_go fs apath rest
                  (txInsert acc name ty cs res (pjoin apath uri))
      else resolve_3d_tx_maps_go fs apath rest acc

/-- The `resolve_3d_tx_maps` function of `MegascansData.py`. -/
def resolve_3d_tx_maps (fs : FS) (apath : String) (maps : List JValue) :
    Except PyErr TxDict :=
  resolve_3d_tx_maps_go fs apath maps []

/-- The list comprehension of `resolve_3d_tx_components`: the joined paths of
`resolution_data["formats"]` entries whose file exists. -/
def gatherFormats (fs : FS) (apath : String) : List JValue → Except PyErr (List String)
  | [] => .ok []
  | f :: rest =>
    match (f.getItem "uri").bind JValue.asStr with
    | .error e => .error e
    | .ok uri =>
      match gatherFormats fs apath rest with
      | .error e => .error e
      | .ok ps =>
        .ok (if fs.pexists (pjoin apath uri) then pjoin apath uri :: ps else ps)

/-- Inner loop of `resolve_3d_tx_components` over one uri's `resolutions`
list: a resolution with at least one existing file is assigned into the
per-component `texture_paths` dict. -/
def comp_res_loop (fs : FS) (apath : String) :
    List JValue → List (String × List String) → Except PyErr (List (String × List String))
  | [], acc => .ok acc
  | rd :: rest, acc =>
    match (rd.pyGet "formats") with
    | .error e => .error e
    | .ok fOpt =>
      match (fOpt.getD (.arr [])).asArr with
      | .error e => .error e
      | .ok fmts =>
        match gatherFormats fs apath fmts with
        | .error e => .error e
        | .ok textures =>
          if textures.isEmpty then comp_res_loop fs apath rest acc
          else
            match (rd.getItem "resolution").bind JValue.asStr with
            | .error e => .error e
            | .ok res => comp_res_loop fs apath rest (dictAssign acc res textures)

/-- Middle loop of `resolve_3d_tx_components` over a component's `uris`. -/
def comp_uris_loop (fs : FS) (apath : String) :
    List JValue → List (String × List String) → Except PyErr (List (String × List String))
  | [], acc => .ok acc
  | u :: rest, acc =>
    match (u.pyGet "resolutions") with
    | .error e => .error e
    | .ok rOpt =>
      match (rOpt.getD (.arr [])).asArr with
      | .error e => .error e
      | .ok rds =>
        match comp_res_loop fs apath rds acc with
        | .error e => .error e
        | .ok acc' => comp_uris_loop fs apath rest acc'

/-- Outer loop of `resolve_3d_tx_components`: a component records a channel
only when some referenced file exists (`if texture_paths:`). -/
def resolve_3d_tx_components_go (fs : FS) (apath : String) :
    List JValue → TxDict → Except PyErr TxDict
  | [], acc => .ok acc
  | c :: rest, acc =>
    match (c.pyGet "uris") with
    | .error e => .error e
    | .ok uOpt =>
      match (uOpt.getD (.arr [])).asArr with
      | .error e => .error e
      | .ok uris =>
        match comp_uris_loop fs apath uris [] with
        | .error e => .error e
        | .ok texture_paths =>
          if texture_paths.isEmpty then resolve_3d_tx_components_go fs apath rest acc
          else
            match (c.getItem "type").bind JValue.asStr with
            | .error e => .error e
            | .ok ty =>
              match (c.getItem "colorSpace").bind JValue.asStr with
              | .error e => .error e
              | .ok cs =>
                match (c.getItem "name").bind JValue.asStr with
                | .error e => .error e
                | .ok name =>
                  resolve_3d_tx_components_go fs apath rest
                    (dictAssign acc name ⟨ty, cs, texture_paths⟩)

/-- The `resolve_3d_tx_components` function of `MegascansData.py`. -/
def resolve_3d_tx_components (fs : FS) (apath : String) (components : List JValue) :
    Except PyErr TxDict :=
  resolve_3d_tx_components_go fs apath components []

/-- The `resolve_3d_tx` function: texture maps are resolved first and returned
when the result is a non-empty dict; otherwise components are resolved. -/
def resolve_3d_tx (fs : FS) (apath : String) (asset_data : JValue) :
    Except PyErr TxDict :=
  match asset_data.pyGet "maps" with
  | .error e => .error e
  | .ok mOpt =>
    match (mOpt.getD (.arr [])).asArr with
    | .error e => .error e
    | .ok maps =>
      match resolve_3d_tx_maps fs apath maps with
      | .error e => .error e
      | .ok tx =>
        if tx.isEmpty then
          match asset_data.pyGet "components" with
          | .error e => .error e
          | .ok cOpt =>
            match (cOpt.getD (.arr [])).asArr with
            | .error e => .error e
            | .ok comps => resolve_3d_tx_components fs apath comps
        else .ok tx

/-- Inner loop of `resolve_3d` over one mesh's uri records: an existing file
whose lowercased uri matches `(high|lod\d)` is recorded under the uppercased
first match and its dot-stripped extension is added to the format set; a file
matching neither pattern, or a missing file, is skipped. -/
def uris_loop (fs : FS) (apath : String) :
    List JValue → MeshDict → List String → Except PyErr (MeshDict × List String)
  | [], d, f => .ok (d, f)
  | u :: rest, d, f =>
    match (u.getItem "uri").bind JValue.asStr with
    | .error e => .error e
    | .ok uri =>
      if fs.pexists (pjoin apath uri) then
        match findFirstLod (pyLower uri).data with
        | some m =>
          uris_loop fs apath rest (appendAt d (pyUpper m) (pjoin apath uri))
            (setAdd f (lstripDots (pathSuffix (pjoin apath uri))))
        | none => uris_loop fs apath rest d f
      else uris_loop fs apath rest d f

/-- Outer loop of `resolve_3d` over the mesh list: `mesh.get("uris") or
[mesh]` falls back to the mesh record itself when `uris` is absent or falsy. -/
def resolve_3d_go (fs : FS) (apath : String) :
    List JValue → MeshDict → List String → Except PyErr (MeshDict × List String)
  | [], d, f => .ok (d, f)
  | mesh :: rest, d, f =>
    match mesh.pyGet "uris" with
    | .error e => .error e
    | .ok uOpt =>
      match (if truthyOpt uOpt then uOpt.getD (.arr []) else .arr [mesh]).asArr with
      | .error e => .error e
      | .ok uris =>
        match uris_loop fs apath uris d f with
        | .error e => .error e
        | .ok (d', f') => resolve_3d_go fs apath rest d' f'

/-- The `resolve_3d` function: the iterated key is `"meshes"` when that entry
is truthy and `"models"` otherwise, and an absent key yields empty results. -/
def resolve_3d (fs : FS) (apath : String) (asset_data : JValue) :
    Except PyErr (MeshDict × List String) :=
  match asset_data.pyGet "meshes" with
  | .error e => .error e
  | .ok mOpt =>
    let key := if truthyOpt mOpt then "meshes" else "models"
    if asset_data.hasKey key then
      match asset_data.getItem key with
      | .error e => .error e
      | .ok itemsV =>
        match itemsV.asArr with
        | .error e => .error e
        | .ok items => resolve_3d_go fs apath items [] []
    else .ok ([], [])

/-- Loop body of `resolve_3dplant_tx`: each existing map file yields a fresh
single-resolution entry that is assigned over any earlier entry of the same
channel name (`tx_dict.update`). -/
def resolve_3dplant_tx_go (fs : FS) (apath : String) :
    List JValue → TxDict → Except PyErr TxDict
  | [], acc => .ok acc
  | m :: rest, acc =>
    match (m.getItem "uri").bind JValue.asStr with
    | .error e => .error e
    | .ok uri =>
      if fs.pexists (pjoin apath uri) then
        match (m.getItem "resolution").bind JValue.asStr with
        | .error e => .error e
        | .ok res =>
          match (m.getItem "name").bind JValue.asStr with
          | .error e => .error e
          | .ok name =>
            match (m.getItem "type").bind JValue.asStr with
            | .error e => .error e
            | .ok ty =>
              match (m.getItem "colorSpace").bind JValue.asStr with
              | .error e => .error e
              | .ok cs =>
                resolve_3dplant_tx_go fs apath rest
                  (dictAssign acc name ⟨ty, cs, [(res, [pjoin apath uri])]⟩)
      else resolve_3dplant_tx_go fs apath rest acc

/-- The `resolve_3dplant_tx` function: iterates `asset_data["maps"]`
(a `KeyError` when absent). -/
def resolve_3dplant_tx (fs : FS) (apath : String) (asset_data : JValue) :
    Except PyErr TxDict :=
  match asset_data.getItem "maps" with
  | .error e => .error e
  | .ok mapsV =>
    match mapsV.asArr with
    | .error e => .error e
    | .ok maps => resolve_3dplant_tx_go fs apath maps []

/-- Loop body of `resolve_3dplant`: for each existing model file the LOD label
is the uppercased part of the uri after its last underscore and before the
following dot; `rsplit("_", maxsplit=1)[1]` is an `IndexError` when the uri
has no underscore.  The file is recorded under the label when the label is a
substring of the uppercased uri. -/
def resolve_3dplant_go (fs : FS) (apath : String) :
    List JValue → MeshDict → List String → Except PyErr (MeshDict × List String)
  | [], d, f => .ok (d, f)
  | model :: rest, d, f =>
    match (model.getItem "uri").bind JValue.asStr with
    | .error e => .error e
    | .ok uri =>
      if fs.pexists (pjoin apath uri) then
        match afterLastUnderscore uri with
        | none => .error .indexError
        | some tail =>
          let lod := pyUpper (takeBeforeDot tail)
          let f' := setAdd f (lstripDots (pathSuffix (pjoin apath uri)))
          if strContains (pyUpper uri) lod then
            resolve_3dplant_go fs apath rest (appendAt d lod (pjoin apath uri)) f'
          else resolve_3dplant_go fs apath rest d f'
      else resolve_3dplant_go fs apath rest d f

/-- The `resolve_3dplant` function: iterates `asset_data["models"]`
(a `KeyError` when absent). -/
def resolve_3dplant (fs : FS) (apath : String) (asset_data : JValue) :
    Except PyErr (MeshDict × List String) :=
  match asset_data.getItem "models" with
  | .error e => .error e
  | .ok modelsV =>
    match modelsV.asArr with
    | .error e => .error e
    | .ok models => resolve_3dplant_go fs apath models [] []

/-- The `resolve_assets` dispatcher: the sidecar `<id>.json` must exist under
the asset path before the type is examined; `"3d"` and `"3dplant"` dispatch to
their resolvers and any other type raises a `ValueError`. -/
def resolve_assets (fs : FS) (asset_type asset_id apath : String) :
    Except PyErr (TxDict × MeshDict × List String) :=
  let mpath := pjoin apath (asset_id ++ ".json")
  if fs.pexists mpath then
    let asset_data := fs.json mpath
    if asset_type = "3d" then
      match resolve_3d_tx fs apath asset_data with
      | .error e => .error e
      | .ok tx =>
        match resolve_3d fs apath asset_data with
        | .error e => .error e
        | .ok lf => .ok (tx, lf.1, lf.2)
    else if asset_type = "3dplant" then
      match resolve_3dplant_tx fs apath asset_data with
      | .error e => .error e
      | .ok tx =>
        match resolve_3dplant fs apath asset_data with
        | .error e => .error e
        | .ok lf => .ok (tx, lf.1, lf.2)
    else .error (.valueError ("Unsupported asset type: " ++ asset_type))
  else .error (.fileNotFoundError ("Metadata file not found: " ++ mpath))

/-- One asset's normalized record, the `metadata` dict of
`set_megascans_data`. -/
structure AssetMeta where
  name : String
  id : String
  path : String
  type : String
  formats : List String
  lods : MeshDict
  textures : TxDict
  preview : String
  tags : JValue

/-- The normalized index: composite key to asset record. -/
abbrev MegaDict := List (String × AssetMeta)

/-- Path of the root manifest, `library_path / "Downloaded" /
"assetsData.json"`. -/
def assetsDataPath (library_path : String) : String :=
  pjoin (pjoin library_path "Downloaded") "assetsData.json"

/-- String coercion of every element of a manifest `path` list
(`"/".join(data["path"])` requires strings). -/
def asStrList : List JValue → Except PyErr (List String)
  | [] => .ok []
  | v :: rest =>
    match v.asStr with
    | .error e => .error e
    | .ok s =>
      match asStrList rest with
      | .error e => .error e
      | .ok ss => .ok (s :: ss)

/-- One iteration of the `set_megascans_data` loop: field extraction in source
order (name, type, id, path, preview, resolution, tags), producing the
composite key `type::name::id` and the normalized record. -/
def build_entry (fs : FS) (library_path : String) (data : JValue) :
    Except PyErr (String × AssetMeta) :=
  match (data.getItem "name").bind JValue.asStr with
  | .error e => .error e
  | .ok rawName =>
    let asset_name := normalizeName rawName
    match (data.getItem "type").bind JValue.asStr with
    | .error e => .error e
    | .ok ty =>
      match (data.getItem "id").bind JValue.asStr with
      | .error e => .error e
      | .ok aid =>
        match (data.getItem "path").bind JValue.asArr with
        | .error e => .error e
        | .ok pathParts =>
          match asStrList pathParts with
          | .error e => .error e
          | .ok parts =>
            let apath := pjoin (pjoin library_path "Downloaded")
              (String.intercalate "/" parts)
            match (data.getItem "preview").bind JValue.asArr with
            | .error e => .error e
            | .ok pv =>
              match pv.getLast? with
              | none => .error .indexError
              | some lastV =>
                match lastV.asStr with
                | .error e => .error e
                | .ok pvs =>
                  match resolve_assets fs ty aid apath with
                  | .error e => .error e
                  | .ok (tx, lods, fmts) =>
                    match data.getItem "tags" with
                    | .error e => .error e
                    | .ok tags =>
                      .ok (ty ++ "::" ++ asset_name ++ "::" ++ aid,
                        ⟨asset_name, aid, apath, ty, fmts, lods, tx,
                          pjoin apath pvs, tags⟩)

/-- The `set_megascans_data` loop over the manifest entries, threading the
insertion-order dict. -/
def build_go (fs : FS) (library_path : String) :
    List JValue → MegaDict → Except PyErr MegaDict
  | [], acc => .ok acc
  | data :: rest, acc =>
    match build_entry fs library_path data with
    | .error e => .error e
    | .ok km => build_go fs library_path rest (dictAssign acc km.1 km.2)

/-- The data-building part of `set_megascans_data`: an absent manifest file
yields the empty index, otherwise every manifest entry is resolved.  The
host-side effects of `set_megascans_data` (user-data write, background image,
info dump, cook) consume this value and are outside the data model. -/
def build_megascans_data (fs : FS) (library_path : String) : Except PyErr MegaDict :=
  if fs.pexists (assetsDataPath library_path) then
    match (fs.json (assetsDataPath library_path)).asArr with
    | .error e => .error e
    | .ok arr => build_go fs library_path arr []
  else .ok []

/-- The `get_current_paths` tuple of `Utilities.py`: the library root, the
root manifest path, and the persisted user-data and hash file paths. -/
structure CurrentPaths where
  library_path : String
  assets_data_path : String
  user_data_path : String
  hash_path : String

/-- The `get_current_paths` function of `Utilities.py`. -/
def get_current_paths (library_path : String) : CurrentPaths :=
  ⟨library_path,
    pjoin (pjoin library_path "Downloaded") "assetsData.json",
    pjoin library_path "megascans_user_data.json",
    pjoin library_path "megascans_user_data.hash"⟩

/-- Minimal JSON string quoting used by the canonical dump. -/
def jquote (s : String) : String := "\"" ++ s ++ "\""

/-- Insertion of a serialized object field into a key-sorted list. -/
def insertSortedField (p : String × String) :
    List (String × String) → List (String × String)
  | [] => [p]
  | q :: qs => if q.1 < p.1 then q :: insertSortedField p qs else p :: q :: qs

/-- Key-sorting of serialized object fields. -/
def sortFields : List (String × String) → List (String × String)
  | [] => []
  | p :: ps => insertSortedField p (sortFields ps)

mutual

/-- Canonical (sorted-key) JSON dump of a value,
`json.dumps(value, sort_keys=True)` up to whitespace and string escaping. -/
def canonicalJson : JValue → String
  | .null => "null"
  | .bool true => "true"
  | .bool false => "false"
  | .num n => toString n
  | .str s => jquote s
  | .arr xs => "[" ++ String.intercalate "," (canonicalArr xs) ++ "]"
  | .obj fs =>
    "\x7b" ++
      String.intercalate ","
        ((sortFields (canonicalFields fs)).map (fun p => jquote p.1 ++ ":" ++ p.2)) ++
      "\x7d"

/-- Canonical dumps of an array's elements. -/
def canonicalArr : List JValue → List String
  | [] => []
  | x :: xs => canonicalJson x :: canonicalArr xs

/-- Canonical dumps of an object's field values, keys kept alongside. -/
def canonicalFields : List (String × JValue) → List (String × String)
  | [] => []
  | (k, v) :: fs => (k, canonicalJson v) :: canonicalFields fs

end

/-- Persisted cache: the previously stored manifest hash (the content of
`hash_path`, `none` when absent) and the previously persisted normalized
index (the content of `user_data_path`). -/
structure CacheState where
  storedHash : Option String
  storedIndex : MegaDict

/-- Modelled from the spec: the cache-gating routine is code of this
repository missing from the sources — `Utilities.bridge_connect` calls
`MegascansData.init_hda`, which no source file defines, and nothing under the
sources reads `hash_path` or `user_data_path`.  Following the spec's words:
the SHA-256 hash (abstracted as the `sha256` parameter) of the canonicalized
(sorted-key) root manifest JSON is compared against the previously persisted
hash; when unchanged, the previously persisted normalized mapping is returned
unrecomputed (third component `false`); when changed, the index is fully
re-resolved with `build_megascans_data` and the new hash is persisted
alongside the new index (third component `true`). -/
def init_hda (sha256 : String → String) (fs : FS) (library_path : String)
    (cache : CacheState) : Except PyErr (MegaDict × CacheState × Bool) :=
  let paths := get_current_paths library_path
  let manifestHash := sha256 (canonicalJson (fs.json paths.assets_data_path))
  if cache.storedHash = some manifestHash then
    .ok (cache.storedIndex, cache, false)
  else
    match build_megascans_data fs library_path with
    | .error e => .error e
    | .ok idx => .ok (idx, ⟨some manifestHash, idx⟩, true)

/-- Outcome of the single `requests.get` call of `bridge_connect`: a response
with its status code and body, or one of the exceptions the code catches. -/
inductive HttpOutcome where
  | response (status : Nat) (body : String) : HttpOutcome
  | connectionError : HttpOutcome
  | timeout : HttpOutcome
  | otherError (msg : String) : HttpOutcome

/-- Observable actions of `bridge_connect`, in order: HTTP GET requests
issued, user-facing messages, the `library_path` parameter write, and the
follow-up `init_hda` call. -/
inductive BridgeEvent where
  | httpGet (url : String) : BridgeEvent
  | message (text : String) : BridgeEvent
  | setLibraryPath (folder : JValue) : BridgeEvent
  | initHda : BridgeEvent

/-- The Bridge endpoint URL. -/
def bridgeUrl : String := "http://localhost:28241/GetMegascansFolder/"

/-- The `bridge_connect` function of `Utilities.py` as a trace semantics: the
returned list is the ordered observable actions and the second component is
the exception escaping to the caller, if any.  The body parse (`response
.json()`) is the `parse` parameter; its failure, like every exception inside
the `try`, is caught.  Only a 200-status response with a parseable, truthy
body reaches the `library_path` write, and `data["folder"]` is the one
subscript outside the `try`. -/
def bridge_connect (parse : String → Option JValue) (resp : HttpOutcome) :
    List BridgeEvent × Option PyErr :=
  match resp with
  | .response status body =>
    if status = 200 then
      match parse body with
      | none => ([.httpGet bridgeUrl, .message "An unexpected error occurred"], none)
      | some d =>
        if truthy d then
          match d.getItem "folder" with
          | .error e => ([.httpGet bridgeUrl, .message "Response from Megascans Bridge:"], some e)
          | .ok folder =>
            ([.httpGet bridgeUrl, .message "Response from Megascans Bridge:",
              .setLibraryPath folder, .initHda], none)
        else ([.httpGet bridgeUrl, .message "Response from Megascans Bridge:"], none)
    else
      ([.httpGet bridgeUrl,
        .message ("Failed to get response. Status code: " ++ toString status)], none)
  | .connectionError =>
    ([.httpGet bridgeUrl,
      .message "Error: Could not connect to Megascans Bridge. Ensure it is running."], none)
  | .timeout =>
    ([.httpGet bridgeUrl,
      .message "Error: Request timed out. Check Bridge server status."], none)
  | .otherError msg =>
    ([.httpGet bridgeUrl, .message ("An unexpected error occurred: " ++ msg)], none)

/-- Test for the HTTP GET action in a bridge trace. -/
def isHttpGet : BridgeEvent → Bool
  | .httpGet _ => true
  | _ => false

/-- Failure outcomes of the bridge request, as the claim enumerates them: a
non-200 status, a connection error, a timeout, any other exception raised by
the request, or an unparseable body. -/
def bridgeFailure (parse : String → Option JValue) : HttpOutcome → Prop
  | .response status body => status ≠ 200 ∨ parse body = none
  | _ => True

/-- Well-formedness of a texture dictionary relative to the filesystem: every
channel's per-resolution lists are non-empty and hold only existing files. -/
def txWF (fs : FS) (tx : TxDict) : Prop :=
  ∀ kv ∈ tx, ∀ rp ∈ kv.2.resolution, rp.2 ≠ [] ∧ ∀ p ∈ rp.2, fs.pexists p = true

/-- Well-formedness of a LOD dictionary: every label's file list is non-empty
and holds only existing files. -/
def meshWF (fs : FS) (d : MeshDict) : Prop :=
  ∀ kv ∈ d, kv.2 ≠ [] ∧ ∀ p ∈ kv.2, fs.pexists p = true

/-- The format list is exactly the distinct dot-stripped extensions of the
files recorded in the LOD dictionary. -/
def formatsExact (d : MeshDict) (f : List String) : Prop :=
  f.Nodup ∧ ∀ ext, ext ∈ f ↔ ∃ kv ∈ d, ∃ p ∈ kv.2, ext = lstripDots (pathSuffix p)

/-- The uri strings a `uris`-style loop iterates, in order: the `uri` field of
each record as a string. -/
def urisOfList : List JValue → Except PyErr (List String)
  | [] => .ok []
  | u :: rest =>
    match (u.getItem "uri").bind JValue.asStr with
    | .error e => .error e
    | .ok s =>
      match urisOfList rest with
      | .error e => .error e
      | .ok ss => .ok (s :: ss)

/-- The uri strings `resolve_3d` iterates, in order: each mesh contributes its
`uris` list when that is truthy and itself otherwise. -/
def urisOfMeshes : List JValue → Except PyErr (List String)
  | [] => .ok []
  | mesh :: rest =>
    match mesh.pyGet "uris" with
    | .error e => .error e
    | .ok uOpt =>
      match (if truthyOpt uOpt then uOpt.getD (.arr []) else .arr [mesh]).asArr with
      | .error e => .error e
      | .ok us =>
        match urisOfList us with
        | .error e => .error e
        | .ok ss =>
          match urisOfMeshes rest with
          | .error e => .error e
          | .ok ss' => .ok (ss ++ ss')

/-- Per-uri recording rule of `resolve_3d`, as the claim states it: a mesh
file that exists is recorded under the uppercased first match of
`(high|lod\d)` in its lowercased uri, with its dot-stripped extension added
to the format set; a file matching neither pattern, or missing, changes
nothing. -/
def lodStep3d (fs : FS) (apath : String) (acc : MeshDict × List String)
    (uri : String) : MeshDict × List String :=
  if fs.pexists (pjoin apath uri) then
    match findFirstLod (pyLower uri).data with
    | some m =>
      (appendAt acc.1 (pyUpper m) (pjoin apath uri),
        setAdd acc.2 (lstripDots (pathSuffix (pjoin apath uri))))
    | none => acc
  else acc

/-- Per-uri recording rule of `resolve_3dplant`, as the claim states it: a
model file that exists is recorded under the uppercased substring of its uri
between the last underscore and the following dot, with its dot-stripped
extension added to the format set.  The `none` branch is unreachable on uris
the source accepts, and the source's containment test `lod in uri.upper()`
is provably always true, so it does not appear here. -/
def lodStepPlant (fs : FS) (apath : String) (acc : MeshDict × List String)
    (uri : String) : MeshDict × List String :=
  if fs.pexists (pjoin apath uri) then
    match afterLastUnderscore uri with
    | some tail =>
      (appendAt acc.1 (pyUpper (takeBeforeDot tail)) (pjoin apath uri),
        setAdd acc.2 (lstripDots (pathSuffix (pjoin apath uri))))
    | none => acc
  else acc

/-- The list `resolve_3d` iterates: the selected `meshes`/`models` entry as an
array, or the empty list when the selected key is absent. -/
def resolve3dItems (asset_data : JValue) : Except PyErr (List JValue) :=
  match asset_data.pyGet "meshes" with
  | .error e => .error e
  | .ok mOpt =>
    let key := if truthyOpt mOpt then "meshes" else "models"
    if asset_data.hasKey key then
      match asset_data.getItem key with
      | .error e => .error e
      | .ok v => v.asArr
    else .ok []

/-- The list `resolve_3dplant` iterates: the `models` entry as an array. -/
def plantItems (asset_data : JValue) : Except PyErr (List JValue) :=
  match asset_data.getItem "models" with
  | .error e => .error e
  | .ok v => v.asArr

/-- Success test of a string field extraction. -/
def isOkStr : Except PyErr String → Bool
  | .ok _ => true
  | .error _ => false

/-- The field `k` of `j` is present with a string value. -/
def hasStrField (j : JValue) (k : String) : Bool :=
  isOkStr ((j.getItem k).bind JValue.asStr)

/-- The field `k` of `j`, when present, is an array whose elements all satisfy
`p` (the `j.get(k, [])` access pattern); `j` itself must be an object. -/
def optListOk (j : JValue) (k : String) (p : JValue → Bool) : Bool :=
  match j.pyGet k with
  | .error _ => false
  | .ok o =>
    match (o.getD (.arr [])).asArr with
    | .error _ => false
    | .ok xs => xs.all p

/-- The field `k` of `j` is an array whose elements all satisfy `p`
(the `j[k]` access pattern). -/
def reqList (j : JValue) (k : String) (p : JValue → Bool) : Bool :=
  match (j.getItem k).bind JValue.asArr with
  | .error _ => false
  | .ok xs => xs.all p

/-- Shape of one record of a `maps` list: the five fields the resolvers read,
all strings. -/
def wfTxMap (m : JValue) : Bool :=
  hasStrField m "uri" && hasStrField m "name" && hasStrField m "resolution" &&
    hasStrField m "type" && hasStrField m "colorSpace"

/-- Shape of one record of a `formats` list. -/
def wfFormatEntry (f : JValue) : Bool := hasStrField f "uri"

/-- Shape of one record of a `resolutions` list. -/
def wfResolution (rd : JValue) : Bool :=
  optListOk rd "formats" wfFormatEntry && hasStrField rd "resolution"

/-- Shape of one record of a component's `uris` list. -/
def wfCompUri (u : JValue) : Bool := optListOk u "resolutions" wfResolution

/-- Shape of one record of a `components` list. -/
def wfComponent (c : JValue) : Bool :=
  optListOk c "uris" wfCompUri && hasStrField c "name" && hasStrField c "type" &&
    hasStrField c "colorSpace"

/-- Shape of one record of a `meshes`/`models` list of a `"3d"` sidecar: when
its `uris` entry is truthy it is an array of records with string uris,
otherwise the mesh itself carries the string uri. -/
def wfMesh (m : JValue) : Bool :=
  match m.pyGet "uris" with
  | .error _ => false
  | .ok o =>
    if truthyOpt o then
      match (o.getD (.arr [])).asArr with
      | .error _ => false
      | .ok us => us.all (fun u => hasStrField u "uri")
    else hasStrField m "uri"

/-- Shape of the mesh part of a `"3d"` sidecar: the selected `meshes`/`models`
entry, when present, is an array of well-shaped mesh records. -/
def wf3dMeshes (adata : JValue) : Bool :=
  match adata.pyGet "meshes" with
  | .error _ => false
  | .ok mOpt =>
    let key := if truthyOpt mOpt then "meshes" else "models"
    if adata.hasKey key then
      match adata.getItem key with
      | .error _ => false
      | .ok v =>
        match v.asArr with
        | .error _ => false
        | .ok items => items.all wfMesh
    else true

/-- The `"3d"` sidecar shape: optional `maps` and `components` lists of
well-shaped records, and a well-shaped mesh part. -/
def wf3d (adata : JValue) : Bool :=
  optListOk adata "maps" wfTxMap && optListOk adata "components" wfComponent &&
    wf3dMeshes adata

/-- The `"3dplant"` sidecar shape: `maps` and `models` lists of well-shaped
records, every model uri whose file exists containing an underscore (the
precondition `resolve_3dplant` needs, per its `rsplit` access). -/
def wfPlant (fs : FS) (apath : String) (adata : JValue) : Bool :=
  reqList adata "maps" wfTxMap &&
    reqList adata "models" (fun m =>
      match (m.getItem "uri").bind JValue.asStr with
      | .error _ => false
      | .ok u => !(fs.pexists (pjoin apath u)) || (afterLastUnderscore u).isSome)

theorem isOkStr_exists {e : Except PyErr String} (h : isOkStr e = true) :
    ∃ s, e = .ok s := by
  cases e with
  | ok s => exact ⟨s, rfl⟩
  | error _ => simp [isOkStr] at h

theorem optListOk_exists {j : JValue} {k : String} {p : JValue → Bool}
    (h : optListOk j k p = true) :
    ∃ o xs, j.pyGet k = .ok o ∧ (o.getD (.arr [])).asArr = .ok xs ∧ xs.all p = true := by
  unfold optListOk at h
  split at h
  · simp at h
  · next o ho =>
    split at h
    · simp at h
    · next xs hxs => exact ⟨o, xs, ho, hxs, h⟩

theorem reqList_exists {j : JValue} {k : String} {p : JValue → Bool}
    (h : reqList j k p = true) :
    ∃ xs, (j.getItem k).bind JValue.asArr = .ok xs ∧ xs.all p = true := by
  unfold reqList at h
  split at h
  · simp at h
  · next xs hxs => exact ⟨xs, hxs, h⟩

/-- C1: the normalized asset index is recomputed only when the SHA-256 hash of
the canonicalized (sorted-key) root manifest JSON differs from the previously
persisted hash.  When the hash is unchanged since the last run, the persisted
normalized mapping is returned with no re-resolution (recompute flag `false`)
and the cache is untouched; when it differs, the index is fully re-resolved by
`build_megascans_data` and the new hash is persisted with the new index. -/
theorem init_hda_cache_gating (sha256 : String → String) (fs : FS)
    (library_path : String) (cache : CacheState) :
    (cache.storedHash = some (sha256 (canonicalJson
        (fs.json (get_current_paths library_path).assets_data_path))) →
      init_hda sha256 fs library_path cache = .ok (cache.storedIndex, cache, false)) ∧
    (cache.storedHash ≠ some (sha256 (canonicalJson
        (fs.json (get_current_paths library_path).assets_data_path))) →
      ∀ idx, build_megascans_data fs library_path = .ok idx →
        init_hda sha256 fs library_path cache =
          .ok (idx, ⟨some (sha256 (canonicalJson
            (fs.json (get_current_paths library_path).assets_data_path))), idx⟩, true)) := by
  constructor
  · intro h
    simp [init_hda, h]
  · intro h idx hidx
    simp [init_hda, h, hidx]

theorem init_hda_cache_gating_witness :
    init_hda (fun _ => "h0") ⟨[], fun _ => .null⟩ "L" ⟨some "h0", []⟩ =
      .ok ([], ⟨some "h0", []⟩, false) ∧
    init_hda (fun _ => "h0") ⟨[], fun _ => .null⟩ "L" ⟨none, []⟩ =
      .ok ([], ⟨some "h0", []⟩, true) :=
  ⟨(init_hda_cache_gating (fun _ => "h0") ⟨[], fun _ => .null⟩ "L" ⟨some "h0", []⟩).1 rfl,
   (init_hda_cache_gating (fun _ => "h0") ⟨[], fun _ => .null⟩ "L" ⟨none, []⟩).2
     (by simp) [] rfl⟩

/-- C8: `resolve_assets` raises `FileNotFoundError` whenever the sidecar
`<id>.json` is missing under the asset path — before the type is examined, so
for every asset type — and raises `ValueError` for every asset type other
than `"3d"` and `"3dplant"` when the sidecar exists.  In both cases the
result is an error, so no normalized record is produced. -/
theorem resolve_assets_error_cases (fs : FS) (asset_type asset_id apath : String) :
    (fs.pexists (pjoin apath (asset_id ++ ".json")) = false →
      resolve_assets fs asset_type asset_id apath =
        .error (.fileNotFoundError
          ("Metadata file not found: " ++ pjoin apath (asset_id ++ ".json")))) ∧
    (fs.pexists (pjoin apath (asset_id ++ ".json")) = true →
      asset_type ≠ "3d" → asset_type ≠ "3dplant" →
      resolve_assets fs asset_type asset_id apath =
        .error (.valueError ("Unsupported asset type: " ++ asset_type))) := by
  constructor
  · intro h
    simp [resolve_assets, h]
  · intro h h3d hplant
    simp [resolve_assets, h, h3d, hplant]

theorem resolve_assets_error_cases_witness :
    resolve_assets ⟨[], fun _ => .null⟩ "3d" "a" "p" =
      .error (.fileNotFoundError "Metadata file not found: p/a.json") ∧
    resolve_assets ⟨["p/a.json"], fun _ => .null⟩ "surface" "a" "p" =
      .error (.valueError "Unsupported asset type: surface") :=
  ⟨(resolve_assets_error_cases ⟨[], fun _ => .null⟩ "3d" "a" "p").1 rfl,
   (resolve_assets_error_cases ⟨["p/a.json"], fun _ => .null⟩ "surface" "a" "p").2
     rfl (by decide) (by decide)⟩

/-- C7: `bridge_connect` performs exactly one HTTP GET (its trace holds one
`httpGet` action whatever the outcome, so there is no retry), on every failure
outcome of the request (non-200 status, connection error, timeout, any other
exception, unparseable body) no exception reaches the caller and the
`library_path` parameter is never written, and the parameter is written with
the returned folder only when the request succeeded with status 200 and a
parseable JSON body. -/
theorem bridge_connect_single_get (parse : String → Option JValue)
    (resp : HttpOutcome) :
    ((bridge_connect parse resp).1.countP isHttpGet = 1) ∧
    (bridgeFailure parse resp →
      (bridge_connect parse resp).2 = none ∧
      ∀ v, BridgeEvent.setLibraryPath v ∉ (bridge_connect parse resp).1) ∧
    (∀ v, BridgeEvent.setLibraryPath v ∈ (bridge_connect parse resp).1 →
      ∃ body d, resp = .response 200 body ∧ parse body = some d ∧
        truthy d = true ∧ d.getItem "folder" = .ok v) := by
  refine ⟨?_, ?_, ?_⟩
  · cases resp with
    | response status body =>
      by_cases h200 : status = 200
      · subst h200
        cases hp : parse body with
        | none => simp [bridge_connect, hp, List.countP, List.countP.go, isHttpGet]
        | some d =>
          by_cases ht : truthy d
          · cases hf : d.getItem "folder" with
            | error e =>
              simp [bridge_connect, hp, ht, hf, List.countP, List.countP.go, isHttpGet]
            | ok v =>
              simp [bridge_connect, hp, ht, hf, List.countP, List.countP.go, isHttpGet]
          · simp [bridge_connect, hp, ht, List.countP, List.countP.go, isHttpGet]
      · simp [bridge_connect, h200, List.countP, List.countP.go, isHttpGet]
    | connectionError => simp [bridge_connect, List.countP, List.countP.go, isHttpGet]
    | timeout => simp [bridge_connect, List.countP, List.countP.go, isHttpGet]
    | otherError m => simp [bridge_connect, List.countP, List.countP.go, isHttpGet]
  · intro hfail
    cases resp with
    | response status body =>
      rcases hfail with h200 | hparse
      · simp [bridge_connect, if_neg h200]
      · by_cases h200 : status = 200
        · subst h200
          simp [bridge_connect, hparse]
        · simp [bridge_connect, if_neg h200]
    | connectionError => simp [bridge_connect]
    | timeout => simp [bridge_connect]
    | otherError m => simp [bridge_connect]
  · intro v hv
    cases resp with
    | response status body =>
      by_cases h200 : status = 200
      · subst h200
        cases hp : parse body with
        | none => simp [bridge_connect, hp] at hv
        | some d =>
          by_cases ht : truthy d
          · cases hf : d.getItem "folder" with
            | error e => simp [bridge_connect, hp, ht, hf] at hv
            | ok w =>
              simp [bridge_connect, hp, ht, hf] at hv
              exact ⟨body, d, rfl, hp, ht, by rw [hf, hv]⟩
          · simp [bridge_connect, hp, ht] at hv
      · simp [bridge_connect, if_neg h200] at hv
    | connectionError => simp [bridge_connect] at hv
    | timeout => simp [bridge_connect] at hv
    | otherError m => simp [bridge_connect] at hv

theorem bridge_connect_single_get_witness :
    (bridge_connect (fun _ => none) .connectionError).2 = none ∧
    ∀ v, BridgeEvent.setLibraryPath v ∉ (bridge_connect (fun _ => none) .connectionError).1 :=
  (bridge_connect_single_get (fun _ => none) .connectionError).2.1 trivial

theorem resolve_3dplant_eq_go {asset_data : JValue} {models : List JValue}
    (h : plantItems asset_data = .ok models) (fs : FS) (apath : String) :
    resolve_3dplant fs apath asset_data = resolve_3dplant_go fs apath models [] [] := by
  unfold plantItems at h
  unfold resolve_3dplant
  split at h
  · simp at h
  · next v heq =>
    rw [h]

theorem resolve_3dplant_go_error (fs : FS) (apath : String) :
    ∀ (models : List JValue) (d : MeshDict) (f : List String),
      (∀ m ∈ models, ∃ u, (m.getItem "uri").bind JValue.asStr = .ok u) →
      (∃ m ∈ models, ∃ u, (m.getItem "uri").bind JValue.asStr = .ok u ∧
        fs.pexists (pjoin apath u) = true ∧ afterLastUnderscore u = none) →
      resolve_3dplant_go fs apath models d f = .error .indexError
  | [], d, f, _, hbad => by simp at hbad
  | m :: rest, d, f, hwf, hbad => by
    obtain ⟨u, hu⟩ := hwf m (List.mem_cons_self m rest)
    rcases hbad with ⟨m', hm', u', hu', hex', hund'⟩
    rcases List.mem_cons.mp hm' with hm'' | hm''
    · subst hm''
      have huu : u' = u := by rw [hu] at hu'; exact (Except.ok.inj hu').symm
      subst huu
      simp only [resolve_3dplant_go, hu, hex', hund', if_true]
    · simp only [resolve_3dplant_go, hu]
      cases hpe : fs.pexists (pjoin apath u) with
      | false =>
        exact resolve_3dplant_go_error fs apath rest d f
          (fun x hx => hwf x (List.mem_cons_of_mem m hx)) ⟨m', hm'', u', hu', hex', hund'⟩
      | true =>
        cases hund : afterLastUnderscore u with
        | none => rfl
        | some tail =>
          cases hsc : strContains (pyUpper u) (pyUpper (takeBeforeDot tail)) with
          | true =>
            simp only [hsc, if_true]
            exact resolve_3dplant_go_error fs apath rest _ _
              (fun x hx => hwf x (List.mem_cons_of_mem m hx)) ⟨m', hm'', u', hu', hex', hund'⟩
          | false =>
            simp only [hsc, if_false]
            exact resolve_3dplant_go_error fs apath rest _ _
              (fun x hx => hwf x (List.mem_cons_of_mem m hx)) ⟨m', hm'', u', hu', hex', hund'⟩

theorem resolve_3dplant_go_total (fs : FS) (apath : String) :
    ∀ (models : List JValue) (d : MeshDict) (f : List String),
      (∀ m ∈ models, ∃ u, (m.getItem "uri").bind JValue.asStr = .ok u ∧
        (fs.pexists (pjoin apath u) = true → (afterLastUnderscore u).isSome = true)) →
      ∃ r, resolve_3dplant_go fs apath models d f = .ok r
  | [], d, f, _ => ⟨(d, f), rfl⟩
  | m :: rest, d, f, hwf => by
    obtain ⟨u, hu, himp⟩ := hwf m (List.mem_cons_self m rest)
    have hrest : ∀ x ∈ rest, ∃ v, (x.getItem "uri").bind JValue.asStr = .ok v ∧
        (fs.pexists (pjoin apath v) = true → (afterLastUnderscore v).isSome = true) :=
      fun x hx => hwf x (List.mem_cons_of_mem m hx)
    simp only [resolve_3dplant_go, hu]
    cases hpe : fs.pexists (pjoin apath u) with
    | false => exact resolve_3dplant_go_total fs apath rest d f hrest
    | true =>
      cases hund : afterLastUnderscore u with
      | none => simp [hpe, hund] at himp
      | some tail =>
        cases hsc : strContains (pyUpper u) (pyUpper (takeBeforeDot tail)) with
        | true =>
          simp only [hsc, if_true]
          exact resolve_3dplant_go_total fs apath rest _ _ hrest
        | false =>
          simp only [hsc, if_false]
          exact resolve_3dplant_go_total fs apath rest _ _ hrest

/-- C10: `resolve_3dplant` is total only under the precondition that every
model uri whose file exists on disk contains at least one underscore.  With
well-shaped model records, any model whose file exists and whose uri has no
underscore makes the whole resolution fail with the `IndexError` of
`rsplit("_", maxsplit=1)[1]` instead of returning a lods/formats pair, and
when every existing model uri has an underscore the resolution returns such
a pair. -/
theorem resolve_3dplant_underscore (fs : FS) (apath : String) (asset_data : JValue)
    (models : List JValue)
    (hm : plantItems asset_data = .ok models)
    (hwf : ∀ m ∈ models, ∃ u, (m.getItem "uri").bind JValue.asStr = .ok u) :
    ((∃ m ∈ models, ∃ u, (m.getItem "uri").bind JValue.asStr = .ok u ∧
        fs.pexists (pjoin apath u) = true ∧ afterLastUnderscore u = none) →
      resolve_3dplant fs apath asset_data = .error .indexError) ∧
    ((∀ m ∈ models, ∀ u, (m.getItem "uri").bind JValue.asStr = .ok u →
        fs.pexists (pjoin apath u) = true → (afterLastUnderscore u).isSome = true) →
      ∃ lods fmts, resolve_3dplant fs apath asset_data = .ok (lods, fmts)) := by
  constructor
  · intro hbad
    rw [resolve_3dplant_eq_go hm]
    exact resolve_3dplant_go_error fs apath models [] [] hwf hbad
  · intro hgood
    rw [resolve_3dplant_eq_go hm]
    obtain ⟨r, hr⟩ := resolve_3dplant_go_total fs apath models [] []
      (fun m hmem => by
        obtain ⟨u, hu⟩ := hwf m hmem
        exact ⟨u, hu, hgood m hmem u hu⟩)
    exact ⟨r.1, r.2, by rw [hr]⟩

theorem resolve_3dplant_underscore_witness :
    resolve_3dplant ⟨["pp/model.fbx"], fun _ => .null⟩ "pp"
      (.obj [("models", .arr [.obj [("uri", .str "model.fbx")]])]) =
      .error .indexError :=
  (resolve_3dplant_underscore ⟨["pp/model.fbx"], fun _ => .null⟩ "pp"
    (.obj [("models", .arr [.obj [("uri", .str "model.fbx")]])])
    [.obj [("uri", .str "model.fbx")]] rfl
    (by
      intro m hm
      rw [List.mem_singleton] at hm
      subst hm
      exact ⟨"model.fbx", rfl⟩)).1
    ⟨.obj [("uri", .str "model.fbx")], List.mem_singleton.mpr rfl,
      "model.fbx", rfl, by decide, by decide⟩

theorem txInsert_ne_nil (acc : TxDict) (name ty cs res path : String) :
    txInsert acc name ty cs res path ≠ [] := by
  cases acc with
  | nil => simp [txInsert]
  | cons kv rest =>
    obtain ⟨n, e⟩ := kv
    simp only [txInsert]
    split <;> simp

theorem resolve_3d_tx_maps_go_ne_nil (fs : FS) (apath : String) :
    ∀ (maps : List JValue) (acc : TxDict) (tx : TxDict),
      acc ≠ [] → resolve_3d_tx_maps_go fs apath maps acc = .ok tx → tx ≠ []
  | [], acc, tx, hacc, hok => by
    simp only [resolve_3d_tx_maps_go] at hok
    rw [← Except.ok.inj hok]
    exact hacc
  | m :: rest, acc, tx, hacc, hok => by
    simp only [resolve_3d_tx_maps_go] at hok
    cases h1 : (m.getItem "uri").bind JValue.asStr with
    | error e => simp only [h1] at hok; exact Except.noConfusion hok
    | ok uri =>
      simp only [h1] at hok
      cases hpe : fs.pexists (pjoin apath uri) with
      | false =>
        rw [hpe] at hok
        simp only [Bool.false_eq_true, if_false] at hok
        exact resolve_3d_tx_maps_go_ne_nil fs apath rest acc tx hacc hok
      | true =>
        rw [hpe] at hok
        simp only [if_true] at hok
        cases h2 : (m.getItem "name").bind JValue.asStr with
        | error e => simp only [h2] at hok; exact Except.noConfusion hok
        | ok name =>
          simp only [h2] at hok
          cases h3 : (m.getItem "resolution").bind JValue.asStr with
          | error e => simp only [h3] at hok; exact Except.noConfusion hok
          | ok res =>
            simp only [h3] at hok
            cases h4 : (m.getItem "type").bind JValue.asStr with
            | error e => simp only [h4] at hok; exact Except.noConfusion hok
            | ok ty =>
              simp only [h4] at hok
              cases h5 : (m.getItem "colorSpace").bind JValue.asStr with
              | error e => simp only [h5] at hok; exact Except.noConfusion hok
              | ok cs =>
                simp only [h5] at hok
                exact resolve_3d_tx_maps_go_ne_nil fs apath rest _ tx
                  (txInsert_ne_nil acc name ty cs res (pjoin apath uri)) hok

theorem resolve_3d_tx_maps_go_nonempty (fs : FS) (apath : String) :
    ∀ (maps : List JValue) (acc : TxDict) (tx : TxDict),
      resolve_3d_tx_maps_go fs apath maps acc = .ok tx →
      (∃ m ∈ maps, ∃ u, (m.getItem "uri").bind JValue.asStr = .ok u ∧
        fs.pexists (pjoin apath u) = true) →
      tx ≠ []
  | [], _, _, _, hbad => by simp at hbad
  | m :: rest, acc, tx, hok, hbad => by
    simp only [resolve_3d_tx_maps_go] at hok
    cases h1 : (m.getItem "uri").bind JValue.asStr with
    | error e => simp only [h1] at hok; exact Except.noConfusion hok
    | ok uri =>
      simp only [h1] at hok
      cases hpe : fs.pexists (pjoin apath uri) with
      | true =>
        rw [hpe] at hok
        simp only [if_true] at hok
        cases h2 : (m.getItem "name").bind JValue.asStr with
        | error e => simp only [h2] at hok; exact Except.noConfusion hok
        | ok name =>
          simp only [h2] at hok
          cases h3 : (m.getItem "resolution").bind JValue.asStr with
          | error e => simp only [h3] at hok; exact Except.noConfusion hok
          | ok res =>
            simp only [h3] at hok
            cases h4 : (m.getItem "type").bind JValue.asStr with
            | error e => simp only [h4] at hok; exact Except.noConfusion hok
            | ok ty =>
              simp only [h4] at hok
              cases h5 : (m.getItem "colorSpace").bind JValue.asStr with
              | error e => simp only [h5] at hok; exact Except.noConfusion hok
              | ok cs =>
                simp only [h5] at hok
                exact resolve_3d_tx_maps_go_ne_nil fs apath rest _ tx
                  (txInsert_ne_nil acc name ty cs res (pjoin apath uri)) hok
      | false =>
        rw [hpe] at hok
        simp only [Bool.false_eq_true, if_false] at hok
        rcases hbad with ⟨m', hm', u', hu', hex'⟩
        rcases List.mem_cons.mp hm' with hm'' | hm''
        · subst hm''
          rw [h1] at hu'
          rw [(Except.ok.inj hu').symm] at hex'
          rw [hpe] at hex'
          simp at hex'
        · exact resolve_3d_tx_maps_go_nonempty fs apath rest acc tx hok ⟨m', hm'', u', hu', hex'⟩

/-- C9: `resolve_3d_tx` consults the sidecar's `maps` list first and returns
its result whenever that result is non-empty — so the result then depends
only on the `maps` entry, and any sidecar with the same `maps` entry yields
the same textures whatever its `components` hold.  Components are resolved
only when the maps result is empty, and the maps result is non-empty as soon
as one file referenced by `maps` exists on disk, so existing map files keep
components from contributing anything. -/
theorem resolve_3d_tx_maps_first (fs : FS) (apath : String) :
    (∀ asset_data asset_data2 mOpt maps tx,
      asset_data.pyGet "maps" = .ok mOpt →
      (mOpt.getD (.arr [])).asArr = .ok maps →
      resolve_3d_tx_maps fs apath maps = .ok tx → tx ≠ [] →
      asset_data2.pyGet "maps" = .ok mOpt →
      resolve_3d_tx fs apath asset_data = .ok tx ∧
        resolve_3d_tx fs apath asset_data2 = .ok tx) ∧
    (∀ asset_data mOpt maps cOpt comps,
      asset_data.pyGet "maps" = .ok mOpt →
      (mOpt.getD (.arr [])).asArr = .ok maps →
      resolve_3d_tx_maps fs apath maps = .ok [] →
      asset_data.pyGet "components" = .ok cOpt →
      (cOpt.getD (.arr [])).asArr = .ok comps →
      resolve_3d_tx fs apath asset_data = resolve_3d_tx_components fs apath comps) ∧
    (∀ maps tx,
      resolve_3d_tx_maps fs apath maps = .ok tx →
      (∃ m ∈ maps, ∃ u, (m.getItem "uri").bind JValue.asStr = .ok u ∧
        fs.pexists (pjoin apath u) = true) →
      tx ≠ []) := by
  refine ⟨?_, ?_, ?_⟩
  · intro asset_data asset_data2 mOpt maps tx hma hasArr hmaps hne hma2
    have hie : tx.isEmpty = false := by
      cases tx with
      | nil => exact absurd rfl hne
      | cons a l => rfl
    constructor
    · simp only [resolve_3d_tx, hma, hasArr, hmaps, hie, Bool.false_eq_true, if_false]
    · simp only [resolve_3d_tx, hma2, hasArr, hmaps, hie, Bool.false_eq_true, if_false]
  · intro asset_data mOpt maps cOpt comps hma hasArr hmaps hc hca
    simp only [resolve_3d_tx, hma, hasArr, hmaps, List.isEmpty_nil, if_true, hc, hca]
  · intro maps tx hmaps hex
    exact resolve_3d_tx_maps_go_nonempty fs apath maps [] tx hmaps hex

theorem resolve_3d_tx_maps_first_witness :
    resolve_3d_tx ⟨["a/t.jpg"], fun _ => .null⟩ "a"
      (.obj [("maps", .arr [.obj [("uri", .str "t.jpg"), ("name", .str "Albedo"),
        ("resolution", .str "2k"), ("type", .str "albedo"), ("colorSpace", .str "sRGB")]]),
        ("components", .str "ignored")]) =
      .ok [("Albedo", ⟨"albedo", "sRGB", [("2k", ["a/t.jpg"])]⟩)] :=
  ((resolve_3d_tx_maps_first ⟨["a/t.jpg"], fun _ => .null⟩ "a").1
    (.obj [("maps", .arr [.obj [("uri", .str "t.jpg"), ("name", .str "Albedo"),
      ("resolution", .str "2k"), ("type", .str "albedo"), ("colorSpace", .str "sRGB")]]),
      ("components", .str "ignored")])
    (.obj [("maps", .arr [.obj [("uri", .str "t.jpg"), ("name", .str "Albedo"),
      ("resolution", .str "2k"), ("type", .str "albedo"), ("colorSpace", .str "sRGB")]]),
      ("components", .str "ignored")])
    _ _ _ rfl rfl rfl (by decide) rfl).1

theorem appendAt_forall {β : Type} (P : β → Prop) :
    ∀ (d : List (String × List β)) (k : String) (v : β),
      (∀ kv ∈ d, kv.2 ≠ [] ∧ ∀ p ∈ kv.2, P p) → P v →
      ∀ kv ∈ appendAt d k v, kv.2 ≠ [] ∧ ∀ p ∈ kv.2, P p
  | [], k, v, _, hv => by
    intro kv hkv
    simp only [appendAt, List.mem_singleton] at hkv
    subst hkv
    refine ⟨by simp, ?_⟩
    intro p hp
    simp only [List.mem_singleton] at hp
    subst hp
    exact hv
  | (k', vs) :: rest, k, v, hd, hv => by
    simp only [appendAt]
    split
    · intro kv hkv
      rcases List.mem_cons.mp hkv with h | h
      · subst h
        refine ⟨by simp, ?_⟩
        intro p hp
        rcases List.mem_append.mp hp with h' | h'
        · exact (hd (k', vs) (List.mem_cons_self _ _)).2 p h'
        · rw [List.mem_singleton.mp h']
          exact hv
      · exact hd kv (List.mem_cons_of_mem _ h)
    · intro kv hkv
      rcases List.mem_cons.mp hkv with h | h
      · subst h
        exact hd (k', vs) (List.mem_cons_self _ _)
      · exact appendAt_forall P rest k v
          (fun kv' hkv' => hd kv' (List.mem_cons_of_mem _ hkv')) hv kv h

theorem dictAssign_forall {β : Type} (P : β → Prop) :
    ∀ (d : List (String × β)) (k : String) (v : β),
      (∀ kv ∈ d, P kv.2) → P v → ∀ kv ∈ dictAssign d k v, P kv.2
  | [], k, v, _, hv => by
    intro kv hkv
    simp only [dictAssign, List.mem_singleton] at hkv
    subst hkv
    exact hv
  | (k', v') :: rest, k, v, hd, hv => by
    simp only [dictAssign]
    split
    · intro kv hkv
      rcases List.mem_cons.mp hkv with h | h
      · subst h
        exact hv
      · exact hd kv (List.mem_cons_of_mem _ h)
    · intro kv hkv
      rcases List.mem_cons.mp hkv with h | h
      · subst h
        exact hd (k', v') (List.mem_cons_self _ _)
      · exact dictAssign_forall P rest k v
          (fun kv' hkv' => hd kv' (List.mem_cons_of_mem _ hkv')) hv kv h

theorem txWF_txInsert (fs : FS) :
    ∀ (acc : TxDict) (name ty cs res path : String),
      txWF fs acc → fs.pexists path = true →
      txWF fs (txInsert acc name ty cs res path)
  | [], name, ty, cs, res, path, _, hpe => by
    intro kv hkv
    simp only [txInsert, List.mem_singleton] at hkv
    subst hkv
    intro rp hrp
    simp only [List.mem_singleton] at hrp
    subst hrp
    refine ⟨by simp, ?_⟩
    intro p hp
    simp only [List.mem_singleton] at hp
    subst hp
    exact hpe
  | (n, e) :: rest, name, ty, cs, res, path, hacc, hpe => by
    simp only [txInsert]
    split
    · intro kv hkv
      rcases List.mem_cons.mp hkv with h | h
      · subst h
        intro rp hrp
        exact appendAt_forall (fun p => fs.pexists p = true) e.resolution res path
          (fun rp' hrp' => hacc (n, e) (List.mem_cons_self _ _) rp' hrp') hpe rp hrp
      · exact hacc kv (List.mem_cons_of_mem _ h)
    · intro kv hkv
      rcases List.mem_cons.mp hkv with h | h
      · subst h
        exact hacc (n, e) (List.mem_cons_self _ _)
      · exact txWF_txInsert fs rest name ty cs res path
          (fun kv' hkv' => hacc kv' (List.mem_cons_of_mem _ hkv')) hpe kv h

theorem resolve_3d_tx_maps_go_wf (fs : FS) (apath : String) :
    ∀ (maps : List JValue) (acc tx : TxDict),
      txWF fs acc → resolve_3d_tx_maps_go fs apath maps acc = .ok tx → txWF fs tx
  | [], acc, tx, hacc, hok => by
    simp only [resolve_3d_tx_maps_go] at hok
    rw [← Except.ok.inj hok]
    exact hacc
  | m :: rest, acc, tx, hacc, hok => by
    simp only [resolve_3d_tx_maps_go] at hok
    cases h1 : (m.getItem "uri").bind JValue.asStr with
    | error e => simp only [h1] at hok; exact Except.noConfusion hok
    | ok uri =>
      simp only [h1] at hok
      cases hpe : fs.pexists (pjoin apath uri) with
      | false =>
        rw [hpe] at hok
        simp only [Bool.false_eq_true, if_false] at hok
        exact resolve_3d_tx_maps_go_wf fs apath rest acc tx hacc hok
      | true =>
        rw [hpe] at hok
        simp only [if_true] at hok
        cases h2 : (m.getItem "name").bind JValue.asStr with
        | error e => simp only [h2] at hok; exact Except.noConfusion hok
        | ok name =>
          simp only [h2] at hok
          cases h3 : (m.getItem "resolution").bind JValue.asStr with
          | error e => simp only [h3] at hok; exact Except.noConfusion hok
          | ok res =>
            simp only [h3] at hok
            cases h4 : (m.getItem "type").bind JValue.asStr with
            | error e => simp only [h4] at hok; exact Except.noConfusion hok
            | ok ty =>
              simp only [h4] at hok
              cases h5 : (m.getItem "colorSpace").bind JValue.asStr with
              | error e => simp only [h5] at hok; exact Except.noConfusion hok
              | ok cs =>
                simp only [h5] at hok
                exact resolve_3d_tx_maps_go_wf fs apath rest _ tx
                  (txWF_txInsert fs acc name ty cs res (pjoin apath uri) hacc hpe) hok

theorem gatherFormats_exists (fs : FS) (apath : String) :
    ∀ (fmts : List JValue) (ps : List String),
      gatherFormats fs apath fmts = .ok ps → ∀ p ∈ ps, fs.pexists p = true
  | [], ps, hok => by
    simp only [gatherFormats] at hok
    rw [← Except.ok.inj hok]
    simp
  | f :: rest, ps, hok => by
    simp only [gatherFormats] at hok
    cases h1 : (f.getItem "uri").bind JValue.asStr with
    | error e => simp only [h1] at hok; exact Except.noConfusion hok
    | ok uri =>
      simp only [h1] at hok
      cases h2 : gatherFormats fs apath rest with
      | error e => simp only [h2] at hok; exact Except.noConfusion hok
      | ok ps' =>
        simp only [h2] at hok
        have hps := Except.ok.inj hok
        intro p hp
        rw [← hps] at hp
        by_cases hpe : fs.pexists (pjoin apath uri) = true
        · rw [if_pos hpe] at hp
          rcases List.mem_cons.mp hp with h | h
          · subst h
            exact hpe
          · exact gatherFormats_exists fs apath rest ps' h2 p h
        · rw [if_neg hpe] at hp
          exact gatherFormats_exists fs apath rest ps' h2 p hp

theorem comp_res_loop_wf (fs : FS) (apath : String) :
    ∀ (rds : List JValue) (acc acc' : List (String × List String)),
      (∀ rp ∈ acc, rp.2 ≠ [] ∧ ∀ p ∈ rp.2, fs.pexists p = true) →
      comp_res_loop fs apath rds acc = .ok acc' →
      ∀ rp ∈ acc', rp.2 ≠ [] ∧ ∀ p ∈ rp.2, fs.pexists p = true
  | [], acc, acc', hacc, hok => by
    simp only [comp_res_loop] at hok
    rw [← Except.ok.inj hok]
    exact hacc
  | rd :: rest, acc, acc', hacc, hok => by
    simp only [comp_res_loop] at hok
    cases h1 : rd.pyGet "formats" with
    | error e => simp only [h1] at hok; exact Except.noConfusion hok
    | ok fOpt =>
      simp only [h1] at hok
      cases h2 : (fOpt.getD (.arr [])).asArr with
      | error e => simp only [h2] at hok; exact Except.noConfusion hok
      | ok fmts =>
        simp only [h2] at hok
        cases h3 : gatherFormats fs apath fmts with
        | error e => simp only [h3] at hok; exact Except.noConfusion hok
        | ok textures =>
          simp only [h3] at hok
          cases hie : textures.isEmpty with
          | true =>
            rw [hie] at hok
            simp only [if_true] at hok
            exact comp_res_loop_wf fs apath rest acc acc' hacc hok
          | false =>
            rw [hie] at hok
            simp only [Bool.false_eq_true, if_false] at hok
            cases h4 : (rd.getItem "resolution").bind JValue.asStr with
            | error e => simp only [h4] at hok; exact Except.noConfusion hok
            | ok res =>
              simp only [h4] at hok
              refine comp_res_loop_wf fs apath rest _ acc' ?_ hok
              intro rp hrp
              refine dictAssign_forall
                (fun vs => vs ≠ [] ∧ ∀ p ∈ vs, fs.pexists p = true) acc res textures
                hacc ⟨?_, gatherFormats_exists fs apath fmts textures h3⟩ rp hrp
              intro hnil
              rw [hnil] at hie
              simp at hie

theorem comp_uris_loop_wf (fs : FS) (apath : String) :
    ∀ (uris : List JValue) (acc acc' : List (String × List String)),
      (∀ rp ∈ acc, rp.2 ≠ [] ∧ ∀ p ∈ rp.2, fs.pexists p = true) →
      comp_uris_loop fs apath uris acc = .ok acc' →
      ∀ rp ∈ acc', rp.2 ≠ [] ∧ ∀ p ∈ rp.2, fs.pexists p = true
  | [], acc, acc', hacc, hok => by
    simp only [comp_uris_loop] at hok
    rw [← Except.ok.inj hok]
    exact hacc
  | u :: rest, acc, acc', hacc, hok => by
    simp only [comp_uris_loop] at hok
    cases h1 : u.pyGet "resolutions" with
    | error e => simp only [h1] at hok; exact Except.noConfusion hok
    | ok rOpt =>
      simp only [h1] at hok
      cases h2 : (rOpt.getD (.arr [])).asArr with
      | error e => simp only [h2] at hok; exact Except.noConfusion hok
      | ok rds =>
        simp only [h2] at hok
        cases h3 : comp_res_loop fs apath rds acc with
        | error e => simp only [h3] at hok; exact Except.noConfusion hok
        | ok acc1 =>
          simp only [h3] at hok
          exact comp_uris_loop_wf fs apath rest acc1 acc'
            (comp_res_loop_wf fs apath rds acc acc1 hacc h3) hok

theorem resolve_3d_tx_components_go_wf (fs : FS) (apath : String) :
    ∀ (components : List JValue) (acc tx : TxDict),
      txWF fs acc → resolve_3d_tx_components_go fs apath components acc = .ok tx →
      txWF fs tx
  | [], acc, tx, hacc, hok => by
    simp only [resolve_3d_tx_components_go] at hok
    rw [← Except.ok.inj hok]
    exact hacc
  | c :: rest, acc, tx, hacc, hok => by
    simp only [resolve_3d_tx_components_go] at hok
    cases h1 : c.pyGet "uris" with
    | error e => simp only [h1] at hok; exact Except.noConfusion hok
    | ok uOpt =>
      simp only [h1] at hok
      cases h2 : (uOpt.getD (.arr [])).asArr with
      | error e => simp only [h2] at hok; exact Except.noConfusion hok
      | ok uris =>
        simp only [h2] at hok
        cases h3 : comp_uris_loop fs apath uris [] with
        | error e => simp only [h3] at hok; exact Except.noConfusion hok
        | ok texture_paths =>
          simp only [h3] at hok
          cases hie : texture_paths.isEmpty with
          | true =>
            rw [hie] at hok
            simp only [if_true] at hok
            exact resolve_3d_tx_components_go_wf fs apath rest acc tx hacc hok
          | false =>
            rw [hie] at hok
            simp only [Bool.false_eq_true, if_false] at hok
            cases h4 : (c.getItem "type").bind JValue.asStr with
            | error e => simp only [h4] at hok; exact Except.noConfusion hok
            | ok ty =>
              simp only [h4] at hok
              cases h5 : (c.getItem "colorSpace").bind JValue.asStr with
              | error e => simp only [h5] at hok; exact Except.noConfusion hok
              | ok cs =>
                simp only [h5] at hok
                cases h6 : (c.getItem "name").bind JValue.asStr with
                | error e => simp only [h6] at hok; exact Except.noConfusion hok
                | ok name =>
                  simp only [h6] at hok
                  refine resolve_3d_tx_components_go_wf fs apath rest _ tx ?_ hok
                  intro kv hkv
                  exact dictAssign_forall
                    (fun e => ∀ rp ∈ e.resolution, rp.2 ≠ [] ∧
                      ∀ p ∈ rp.2, fs.pexists p = true)
                    acc name ⟨ty, cs, texture_paths⟩ (fun kv' hkv' => hacc kv' hkv')
                    (comp_uris_loop_wf fs apath uris [] texture_paths (by simp) h3)
                    kv hkv

theorem resolve_3dplant_tx_go_wf (fs : FS) (apath : String) :
    ∀ (maps : List JValue) (acc tx : TxDict),
      txWF fs acc → resolve_3dplant_tx_go fs apath maps acc = .ok tx → txWF fs tx
  | [], acc, tx, hacc, hok => by
    simp only [resolve_3dplant_tx_go] at hok
    rw [← Except.ok.inj hok]
    exact hacc
  | m :: rest, acc, tx, hacc, hok => by
    simp only [resolve_3dplant_tx_go] at hok
    cases h1 : (m.getItem "uri").bind JValue.asStr with
    | error e => simp only [h1] at hok; exact Except.noConfusion hok
    | ok uri =>
      simp only [h1] at hok
      cases hpe : fs.pexists (pjoin apath uri) with
      | false =>
        rw [hpe] at hok
        simp only [Bool.false_eq_true, if_false] at hok
        exact resolve_3dplant_tx_go_wf fs apath rest acc tx hacc hok
      | true =>
        rw [hpe] at hok
        simp only [if_true] at hok
        cases h2 : (m.getItem "resolution").bind JValue.asStr with
        | error e => simp only [h2] at hok; exact Except.noConfusion hok
        | ok res =>
          simp only [h2] at hok
          cases h3 : (m.getItem "name").bind JValue.asStr with
          | error e => simp only [h3] at hok; exact Except.noConfusion hok
          | ok name =>
            simp only [h3] at hok
            cases h4 : (m.getItem "type").bind JValue.asStr with
            | error e => simp only [h4] at hok; exact Except.noConfusion hok
            | ok ty =>
              simp only [h4] at hok
              cases h5 : (m.getItem "colorSpace").bind JValue.asStr with
              | error e => simp only [h5] at hok; exact Except.noConfusion hok
              | ok cs =>
                simp only [h5] at hok
                refine resolve_3dplant_tx_go_wf fs apath rest _ tx ?_ hok
                intro kv hkv
                refine dictAssign_forall
                  (fun e => ∀ rp ∈ e.resolution, rp.2 ≠ [] ∧
                    ∀ p ∈ rp.2, fs.pexists p = true)
                  acc name ⟨ty, cs, [(res, [pjoin apath uri])]⟩
                  (fun kv' hkv' => hacc kv' hkv') ?_ kv hkv
                intro rp hrp
                simp only [List.mem_singleton] at hrp
                subst hrp
                refine ⟨by simp, ?_⟩
                intro p hp
                simp only [List.mem_singleton] at hp
                subst hp
                exact hpe

theorem tx_resolvers_wf (fs : FS) (apath : String) :
    (∀ asset_data tx, resolve_3d_tx fs apath asset_data = .ok tx → txWF fs tx) ∧
    (∀ asset_data tx, resolve_3dplant_tx fs apath asset_data = .ok tx → txWF fs tx) := by
  constructor
  · intro asset_data tx hok
    simp only [resolve_3d_tx] at hok
    cases h1 : asset_data.pyGet "maps" with
    | error e => simp only [h1] at hok; exact Except.noConfusion hok
    | ok mOpt =>
      simp only [h1] at hok
      cases h2 : (mOpt.getD (.arr [])).asArr with
      | error e => simp only [h2] at hok; exact Except.noConfusion hok
      | ok maps =>
        simp only [h2] at hok
        cases h3 : resolve_3d_tx_maps fs apath maps with
        | error e => simp only [h3] at hok; exact Except.noConfusion hok
        | ok tx1 =>
          simp only [h3] at hok
          cases hie : tx1.isEmpty with
          | false =>
            rw [hie] at hok
            simp only [Bool.false_eq_true, if_false] at hok
            rw [← Except.ok.inj hok]
            exact resolve_3d_tx_maps_go_wf fs apath maps [] tx1 (by simp [txWF]) h3
          | true =>
            rw [hie] at hok
            simp only [if_true] at hok
            cases h4 : asset_data.pyGet "components" with
            | error e => simp only [h4] at hok; exact Except.noConfusion hok
            | ok cOpt =>
              simp only [h4] at hok
              cases h5 : (cOpt.getD (.arr [])).asArr with
              | error e => simp only [h5] at hok; exact Except.noConfusion hok
              | ok comps =>
                simp only [h5] at hok
                exact resolve_3d_tx_components_go_wf fs apath comps [] tx
                  (by simp [txWF]) hok
  · intro asset_data tx hok
    simp only [resolve_3dplant_tx] at hok
    cases h1 : asset_data.getItem "maps" with
    | error e => simp only [h1] at hok; exact Except.noConfusion hok
    | ok mapsV =>
      simp only [h1] at hok
      cases h2 : mapsV.asArr with
      | error e => simp only [h2] at hok; exact Except.noConfusion hok
      | ok maps =>
        simp only [h2] at hok
        exact resolve_3dplant_tx_go_wf fs apath maps [] tx (by simp [txWF]) hok

/-- C5: every texture dictionary the resolvers return — `resolve_3d_tx`,
covering both the `maps` and the `components` sidecar shapes, and
`resolve_3dplant_tx` — maps each channel name to a record of declared type,
color space, and a resolution-to-paths mapping in which every path list is
non-empty and only files that exist on disk appear. -/
theorem textures_exist_on_disk (fs : FS) (apath : String) :
    (∀ asset_data tx, resolve_3d_tx fs apath asset_data = .ok tx → txWF fs tx) ∧
    (∀ asset_data tx, resolve_3dplant_tx fs apath asset_data = .ok tx → txWF fs tx) :=
  tx_resolvers_wf fs apath

theorem textures_exist_on_disk_witness :
    txWF ⟨["a/t.jpg"], fun _ => .null⟩
      [("Albedo", ⟨"albedo", "sRGB", [("2k", ["a/t.jpg"])]⟩)] :=
  (textures_exist_on_disk ⟨["a/t.jpg"], fun _ => .null⟩ "a").1
    (.obj [("maps", .arr [.obj [("uri", .str "t.jpg"), ("name", .str "Albedo"),
      ("resolution", .str "2k"), ("type", .str "albedo"), ("colorSpace", .str "sRGB")]])])
    [("Albedo", ⟨"albedo", "sRGB", [("2k", ["a/t.jpg"])]⟩)] rfl

theorem digit_toUpper (c : Char) (h : c.isDigit = true) : c.toUpper = c := by
  simp only [Char.isDigit, Bool.and_eq_true, decide_eq_true_eq] at h
  have h57 : c.val.toNat ≤ 57 := h.2
  unfold Char.toUpper
  have hn : ¬(c.toNat ≥ 97 ∧ c.toNat ≤ 122) := by
    intro hc
    have he : c.toNat = c.val.toNat := rfl
    omega
  simp only [hn, if_false]

theorem strContains_of_infix {needle hay : String}
    (h : needle.data <:+: hay.data) : strContains hay needle = true := by
  unfold strContains
  rw [List.any_eq_true]
  obtain ⟨t, hpre, hsuf⟩ := List.infix_iff_prefix_suffix.mp h
  exact ⟨t, (List.mem_tails t hay.data).mpr hsuf, List.isPrefixOf_iff_prefix.mpr hpre⟩

theorem afterLastUnderscore_suffix {s tail : String}
    (h : afterLastUnderscore s = some tail) : tail.data <:+ s.data := by
  unfold afterLastUnderscore at h
  split at h
  · rw [← Option.some.inj h]
    refine (List.reverse_prefix).mp ?_
    rw [List.reverse_reverse]
    exact List.takeWhile_prefix _
  · exact Option.noConfusion h

theorem plant_contains (uri tail : String)
    (h : afterLastUnderscore uri = some tail) :
    strContains (pyUpper uri) (pyUpper (takeBeforeDot tail)) = true := by
  apply strContains_of_infix
  have h1 : (takeBeforeDot tail).data <+: tail.data := List.takeWhile_prefix _
  have h2 : tail.data <:+ uri.data := afterLastUnderscore_suffix h
  have h3 : (takeBeforeDot tail).data <:+: uri.data :=
    List.infix_iff_prefix_suffix.mpr ⟨tail.data, h1, h2⟩
  exact h3.map Char.toUpper

theorem lodMatchAt_shape {cs : List Char} {m : String} (h : lodMatchAt cs = some m) :
    m = "high" ∨ ∃ d, d.isDigit = true ∧ m = String.mk ['l', 'o', 'd', d] := by
  unfold lodMatchAt at h
  split at h
  · exact Or.inl (Option.some.inj h).symm
  · next d _ =>
    split at h
    · next hd => exact Or.inr ⟨d, hd, (Option.some.inj h).symm⟩
    · exact Option.noConfusion h
  · exact Option.noConfusion h

theorem findFirstLod_shape :
    ∀ {cs : List Char} {m : String}, findFirstLod cs = some m →
      m = "high" ∨ ∃ d, d.isDigit = true ∧ m = String.mk ['l', 'o', 'd', d]
  | [], m, h => by simp [findFirstLod] at h
  | c :: rest, m, h => by
    simp only [findFirstLod] at h
    cases hm : lodMatchAt (c :: rest) with
    | some m' =>
      rw [hm] at h
      rw [← Option.some.inj h]
      exact lodMatchAt_shape hm
    | none =>
      rw [hm] at h
      exact findFirstLod_shape h

theorem upper_label_shape {m : String}
    (h : m = "high" ∨ ∃ d, d.isDigit = true ∧ m = String.mk ['l', 'o', 'd', d]) :
    pyUpper m = "HIGH" ∨ ∃ d, d.isDigit = true ∧
      pyUpper m = String.mk ['L', 'O', 'D', d] := by
  rcases h with h | ⟨d, hd, h⟩
  · subst h
    exact Or.inl (by decide)
  · subst h
    refine Or.inr ⟨d, hd, ?_⟩
    show String.mk (['l', 'o', 'd', d].map Char.toUpper) = String.mk ['L', 'O', 'D', d]
    simp only [List.map_cons, List.map_nil]
    rw [digit_toUpper d hd]
    rw [show 'l'.toUpper = 'L' from by decide, show 'o'.toUpper = 'O' from by decide,
      show 'd'.toUpper = 'D' from by decide]

theorem appendAt_keys {β : Type} :
    ∀ (d : List (String × List β)) (k : String) (v : β) (kv : String × List β),
      kv ∈ appendAt d k v → kv.1 = k ∨ kv ∈ d
  | [], k, v, kv, h => by
    simp only [appendAt, List.mem_singleton] at h
    subst h
    exact Or.inl rfl
  | (k', vs) :: rest, k, v, kv, h => by
    simp only [appendAt] at h
    split at h
    · next heq =>
      rcases List.mem_cons.mp h with h' | h'
      · subst h'
        exact Or.inl heq
      · exact Or.inr (List.mem_cons_of_mem _ h')
    · rcases List.mem_cons.mp h with h' | h'
      · subst h'
        exact Or.inr (List.mem_cons_self _ _)
      · rcases appendAt_keys rest k v kv h' with h'' | h''
        · exact Or.inl h''
        · exact Or.inr (List.mem_cons_of_mem _ h'')

theorem mem_setAdd {f : List String} {x y : String} :
    y ∈ setAdd f x ↔ y ∈ f ∨ y = x := by
  unfold setAdd
  by_cases hx : f.contains x
  · rw [if_pos hx]
    constructor
    · exact Or.inl
    · intro h
      rcases h with h | h
      · exact h
      · subst h
        exact List.elem_iff.mp hx
  · rw [if_neg hx]
    rw [List.mem_append, List.mem_singleton]

theorem nodup_setAdd {f : List String} {x : String} (h : f.Nodup) :
    (setAdd f x).Nodup := by
  unfold setAdd
  by_cases hx : f.contains x
  · rw [if_pos hx]
    exact h
  · rw [if_neg hx]
    refine List.Nodup.append h (List.nodup_singleton x) ?_
    intro a ha hb
    rw [List.mem_singleton] at hb
    subst hb
    exact hx (List.elem_iff.mpr ha)

theorem appendAt_exists_path {β : Type} (P : β → Prop) :
    ∀ (d : List (String × List β)) (k : String) (v : β),
      ((∃ kv ∈ appendAt d k v, ∃ p ∈ kv.2, P p) ↔
        (∃ kv ∈ d, ∃ p ∈ kv.2, P p) ∨ P v)
  | [], k, v => by
    simp [appendAt]
  | (k', vs) :: rest, k, v => by
    simp only [appendAt]
    split
    · rw [List.exists_mem_cons_iff, List.exists_mem_cons_iff]
      have hA : (∃ p ∈ vs ++ [v], P p) ↔ (∃ p ∈ vs, P p) ∨ P v := by
        constructor
        · rintro ⟨p, hp, hP⟩
          rcases List.mem_append.mp hp with h | h
          · exact Or.inl ⟨p, h, hP⟩
          · rw [List.mem_singleton] at h
            subst h
            exact Or.inr hP
        · rintro (⟨p, hp, hP⟩ | hP)
          · exact ⟨p, List.mem_append.mpr (Or.inl hp), hP⟩
          · exact ⟨v, List.mem_append.mpr (Or.inr (List.mem_singleton.mpr rfl)), hP⟩
      rw [show ((k', vs ++ [v]) : String × List β).2 = vs ++ [v] from rfl,
        show ((k', vs) : String × List β).2 = vs from rfl, hA]
      constructor
      · rintro ((h | h) | h)
        · exact Or.inl (Or.inl h)
        · exact Or.inr h
        · exact Or.inl (Or.inr h)
      · rintro ((h | h) | h)
        · exact Or.inl (Or.inl h)
        · exact Or.inr h
        · exact Or.inl (Or.inr h)
    · rw [List.exists_mem_cons_iff, List.exists_mem_cons_iff,
        appendAt_exists_path P rest k v]
      exact or_assoc.symm

theorem uris_loop_fold (fs : FS) (apath : String) :
    ∀ (us : List JValue) (d : MeshDict) (f : List String) (r : MeshDict × List String),
      uris_loop fs apath us d f = .ok r →
      ∃ ss, urisOfList us = .ok ss ∧ r = ss.foldl (lodStep3d fs apath) (d, f)
  | [], d, f, r, hok => by
    simp only [uris_loop] at hok
    exact ⟨[], rfl, (Except.ok.inj hok).symm⟩
  | u :: rest, d, f, r, hok => by
    simp only [uris_loop] at hok
    cases h1 : (u.getItem "uri").bind JValue.asStr with
    | error e => simp only [h1] at hok; exact Except.noConfusion hok
    | ok uri =>
      simp only [h1] at hok
      cases hpe : fs.pexists (pjoin apath uri) with
      | false =>
        rw [hpe] at hok
        simp only [Bool.false_eq_true, if_false] at hok
        obtain ⟨ss, hss, hfold⟩ := uris_loop_fold fs apath rest d f r hok
        refine ⟨uri :: ss, ?_, ?_⟩
        · simp only [urisOfList, h1, hss]
        · rw [hfold]
          simp only [List.foldl_cons, lodStep3d, hpe, Bool.false_eq_true, if_false]
      | true =>
        rw [hpe] at hok
        simp only [if_true] at hok
        cases hm : findFirstLod (pyLower uri).data with
        | some m =>
          simp only [hm] at hok
          obtain ⟨ss, hss, hfold⟩ := uris_loop_fold fs apath rest _ _ r hok
          refine ⟨uri :: ss, ?_, ?_⟩
          · simp only [urisOfList, h1, hss]
          · rw [hfold]
            simp only [List.foldl_cons, lodStep3d, hpe, if_true, hm]
        | none =>
          simp only [hm] at hok
          obtain ⟨ss, hss, hfold⟩ := uris_loop_fold fs apath rest d f r hok
          refine ⟨uri :: ss, ?_, ?_⟩
          · simp only [urisOfList, h1, hss]
          · rw [hfold]
            simp only [List.foldl_cons, lodStep3d, hpe, if_true, hm]

theorem resolve_3d_go_fold (fs : FS) (apath : String) :
    ∀ (items : List JValue) (d : MeshDict) (f : List String) (r : MeshDict × List String),
      resolve_3d_go fs apath items d f = .ok r →
      ∃ ss, urisOfMeshes items = .ok ss ∧ r = ss.foldl (lodStep3d fs apath) (d, f)
  | [], d, f, r, hok => by
    simp only [resolve_3d_go] at hok
    exact ⟨[], rfl, (Except.ok.inj hok).symm⟩
  | mesh :: rest, d, f, r, hok => by
    simp only [resolve_3d_go] at hok
    cases h1 : mesh.pyGet "uris" with
    | error e => simp only [h1] at hok; exact Except.noConfusion hok
    | ok uOpt =>
      simp only [h1] at hok
      cases h2 : (if truthyOpt uOpt then uOpt.getD (.arr []) else .arr [mesh]).asArr with
      | error e => simp only [h2] at hok; exact Except.noConfusion hok
      | ok us =>
        simp only [h2] at hok
        cases h3 : uris_loop fs apath us d f with
        | error e => simp only [h3] at hok; exact Except.noConfusion hok
        | ok df =>
          obtain ⟨d1, f1⟩ := df
          simp only [h3] at hok
          obtain ⟨ss1, hss1, hfold1⟩ := uris_loop_fold fs apath us d f (d1, f1) h3
          obtain ⟨ss2, hss2, hfold2⟩ := resolve_3d_go_fold fs apath rest d1 f1 r hok
          refine ⟨ss1 ++ ss2, ?_, ?_⟩
          · simp only [urisOfMeshes, h1, h2, hss1, hss2]
          · rw [List.foldl_append, ← hfold1, hfold2]

/-- The preamble of `resolve_3d` agrees with `resolve3dItems`: once the
iterated list is known, `resolve_3d` is its loop from empty accumulators (an
absent key yields the empty list and the empty results). -/
theorem resolve_3d_eq_go {asset_data : JValue} {items : List JValue}
    (h : resolve3dItems asset_data = .ok items) (fs : FS) (apath : String) :
    resolve_3d fs apath asset_data = resolve_3d_go fs apath items [] [] := by
  unfold resolve3dItems at h
  unfold resolve_3d
  cases h1 : asset_data.pyGet "meshes" with
  | error e =>
    simp only [h1] at h
    exact Except.noConfusion h
  | ok mOpt =>
    simp only [h1] at h ⊢
    by_cases hk : asset_data.hasKey (if truthyOpt mOpt then "meshes" else "models") = true
    · rw [if_pos hk] at h ⊢
      cases h2 : asset_data.getItem (if truthyOpt mOpt then "meshes" else "models") with
      | error e =>
        simp only [h2] at h
        exact Except.noConfusion h
      | ok v =>
        simp only [h2] at h ⊢
        rw [h]
    · rw [if_neg hk] at h ⊢
      rw [← Except.ok.inj h]
      rfl

theorem foldl_lodStep3d_keys (fs : FS) (apath : String) :
    ∀ (ss : List String) (acc : MeshDict × List String) (kv : String × List String),
      kv ∈ (ss.foldl (lodStep3d fs apath) acc).1 →
      kv ∈ acc.1 ∨ kv.1 = "HIGH" ∨ ∃ d, d.isDigit = true ∧
        kv.1 = String.mk ['L', 'O', 'D', d]
  | [], acc, kv, h => Or.inl h
  | uri :: ss, acc, kv, h => by
    rw [List.foldl_cons] at h
    rcases foldl_lodStep3d_keys fs apath ss (lodStep3d fs apath acc uri) kv h with
      h' | h'
    · unfold lodStep3d at h'
      by_cases hpe : fs.pexists (pjoin apath uri) = true
      · rw [if_pos hpe] at h'
        cases hm : findFirstLod (pyLower uri).data with
        | some m =>
          rw [hm] at h'
          rcases appendAt_keys acc.1 (pyUpper m) (pjoin apath uri) kv h' with h'' | h''
          · rw [h'']
            exact Or.inr (upper_label_shape (findFirstLod_shape hm))
          · exact Or.inl h''
        | none =>
          rw [hm] at h'
          exact Or.inl h'
      · rw [if_neg hpe] at h'
        exact Or.inl h'
    · exact Or.inr h'

theorem resolve_3dplant_go_fold (fs : FS) (apath : String) :
    ∀ (models : List JValue) (d : MeshDict) (f : List String) (r : MeshDict × List String),
      resolve_3dplant_go fs apath models d f = .ok r →
      ∃ ss, urisOfList models = .ok ss ∧
        r = ss.foldl (lodStepPlant fs apath) (d, f) ∧
        ∀ u ∈ ss, fs.pexists (pjoin apath u) = true → afterLastUnderscore u ≠ none
  | [], d, f, r, hok => by
    simp only [resolve_3dplant_go] at hok
    exact ⟨[], rfl, (Except.ok.inj hok).symm, by simp⟩
  | model :: rest, d, f, r, hok => by
    simp only [resolve_3dplant_go] at hok
    cases h1 : (model.getItem "uri").bind JValue.asStr with
    | error e => simp only [h1] at hok; exact Except.noConfusion hok
    | ok uri =>
      simp only [h1] at hok
      cases hpe : fs.pexists (pjoin apath uri) with
      | false =>
        rw [hpe] at hok
        simp only [Bool.false_eq_true, if_false] at hok
        obtain ⟨ss, hss, hfold, hund⟩ := resolve_3dplant_go_fold fs apath rest d f r hok
        refine ⟨uri :: ss, ?_, ?_, ?_⟩
        · simp only [urisOfList, h1, hss]
        · rw [hfold]
          simp only [List.foldl_cons, lodStepPlant, hpe, Bool.false_eq_true, if_false]
        · intro u hu hup
          rcases List.mem_cons.mp hu with h | h
          · subst h
            rw [hup] at hpe
            exact absurd hpe (by simp)
          · exact hund u h hup
      | true =>
        rw [hpe] at hok
        simp only [if_true] at hok
        cases hund : afterLastUnderscore uri with
        | none =>
          simp only [hund] at hok
          exact Except.noConfusion hok
        | some tail =>
          simp only [hund] at hok
          rw [if_pos (plant_contains uri tail hund)] at hok
          obtain ⟨ss, hss, hfold, hundAll⟩ :=
            resolve_3dplant_go_fold fs apath rest _ _ r hok
          refine ⟨uri :: ss, ?_, ?_, ?_⟩
          · simp only [urisOfList, h1, hss]
          · rw [hfold]
            simp only [List.foldl_cons, lodStepPlant, hpe, if_true, hund]
          · intro u hu hup
            rcases List.mem_cons.mp hu with h | h
            · subst h
              rw [hund]
              simp
            · exact hundAll u h hup

/-- C3: LOD labels are derived from filenames exactly as the claim states.
For a `"3d"` asset the resolved LOD dictionary (and format set) is the fold of
`lodStep3d` — record an existing file under the uppercased first match of
`(high|lod\d)` in its lowercased uri, skip files matching neither — over the
uri sequence, and every label has the form `HIGH` or `LOD<digit>`.  For a
`"3dplant"` asset the result is the fold of `lodStepPlant` — record an
existing file under the uppercased substring of its uri between the last
underscore and the following dot. -/
theorem lod_label_derivation (fs : FS) (apath : String) :
    (∀ asset_data items ss lods fmts,
      resolve3dItems asset_data = .ok items →
      urisOfMeshes items = .ok ss →
      resolve_3d fs apath asset_data = .ok (lods, fmts) →
      (lods, fmts) = ss.foldl (lodStep3d fs apath) ([], []) ∧
      ∀ kv ∈ lods, kv.1 = "HIGH" ∨ ∃ d, d.isDigit = true ∧
        kv.1 = String.mk ['L', 'O', 'D', d]) ∧
    (∀ asset_data items ss lods fmts,
      plantItems asset_data = .ok items →
      urisOfList items = .ok ss →
      resolve_3dplant fs apath asset_data = .ok (lods, fmts) →
      (lods, fmts) = ss.foldl (lodStepPlant fs apath) ([], [])) := by
  constructor
  · intro asset_data items ss lods fmts hitems hss hok
    rw [resolve_3d_eq_go hitems] at hok
    obtain ⟨ss', hss', hfold⟩ := resolve_3d_go_fold fs apath items [] [] (lods, fmts) hok
    rw [hss] at hss'
    rw [← Except.ok.inj hss'] at hfold
    refine ⟨hfold, ?_⟩
    intro kv hkv
    have hl : lods = (ss.foldl (lodStep3d fs apath) ([], [])).1 := by rw [← hfold]
    rcases foldl_lodStep3d_keys fs apath ss ([], []) kv (hl ▸ hkv) with h | h
    · simp at h
    · exact h
  · intro asset_data items ss lods fmts hitems hss hok
    rw [resolve_3dplant_eq_go hitems] at hok
    obtain ⟨ss', hss', hfold, _⟩ :=
      resolve_3dplant_go_fold fs apath items [] [] (lods, fmts) hok
    rw [hss] at hss'
    rw [← Except.ok.inj hss'] at hfold
    exact hfold

theorem lod_label_derivation_witness :
    (([("HIGH", ["ap/m_high.fbx"])], ["fbx"]) : MeshDict × List String) =
      (["m_high.fbx"].foldl
        (lodStep3d ⟨["ap/m_high.fbx"], fun _ => .null⟩ "ap") ([], [])) ∧
    ∀ kv ∈ ([("HIGH", ["ap/m_high.fbx"])] : MeshDict),
      kv.1 = "HIGH" ∨ ∃ d, d.isDigit = true ∧ kv.1 = String.mk ['L', 'O', 'D', d] :=
  (lod_label_derivation ⟨["ap/m_high.fbx"], fun _ => .null⟩ "ap").1
    (.obj [("meshes", .arr [.obj [("uri", .str "m_high.fbx")]])])
    [.obj [("uri", .str "m_high.fbx")]] ["m_high.fbx"]
    [("HIGH", ["ap/m_high.fbx"])] ["fbx"] rfl rfl rfl

theorem lods_formats_step (fs : FS) {d : MeshDict} {f : List String}
    (hwf : meshWF fs d) (hfe : formatsExact d f)
    {p : String} (hp : fs.pexists p = true) (k : String) :
    meshWF fs (appendAt d k p) ∧
      formatsExact (appendAt d k p) (setAdd f (lstripDots (pathSuffix p))) := by
  refine ⟨?_, ?_, ?_⟩
  · exact fun kv hkv => appendAt_forall (fun q => fs.pexists q = true) d k p
      (fun kv' hkv' => hwf kv' hkv') hp kv hkv
  · exact nodup_setAdd hfe.1
  · intro ext
    rw [mem_setAdd, hfe.2 ext,
      appendAt_exists_path (fun q => ext = lstripDots (pathSuffix q)) d k p]

theorem uris_loop_inv (fs : FS) (apath : String) :
    ∀ (us : List JValue) (d : MeshDict) (f : List String) (r : MeshDict × List String),
      meshWF fs d → formatsExact d f →
      uris_loop fs apath us d f = .ok r →
      meshWF fs r.1 ∧ formatsExact r.1 r.2
  | [], d, f, r, hwf, hfe, hok => by
    simp only [uris_loop] at hok
    rw [← Except.ok.inj hok]
    exact ⟨hwf, hfe⟩
  | u :: rest, d, f, r, hwf, hfe, hok => by
    simp only [uris_loop] at hok
    cases h1 : (u.getItem "uri").bind JValue.asStr with
    | error e => simp only [h1] at hok; exact Except.noConfusion hok
    | ok uri =>
      simp only [h1] at hok
      cases hpe : fs.pexists (pjoin apath uri) with
      | false =>
        rw [hpe] at hok
        simp only [Bool.false_eq_true, if_false] at hok
        exact uris_loop_inv fs apath rest d f r hwf hfe hok
      | true =>
        rw [hpe] at hok
        simp only [if_true] at hok
        cases hm : findFirstLod (pyLower uri).data with
        | some m =>
          simp only [hm] at hok
          obtain ⟨hwf', hfe'⟩ := lods_formats_step fs hwf hfe hpe (pyUpper m)
          exact uris_loop_inv fs apath rest _ _ r hwf' hfe' hok
        | none =>
          simp only [hm] at hok
          exact uris_loop_inv fs apath rest d f r hwf hfe hok

theorem resolve_3d_go_inv (fs : FS) (apath : String) :
    ∀ (items : List JValue) (d : MeshDict) (f : List String) (r : MeshDict × List String),
      meshWF fs d → formatsExact d f →
      resolve_3d_go fs apath items d f = .ok r →
      meshWF fs r.1 ∧ formatsExact r.1 r.2
  | [], d, f, r, hwf, hfe, hok => by
    simp only [resolve_3d_go] at hok
    rw [← Except.ok.inj hok]
    exact ⟨hwf, hfe⟩
  | mesh :: rest, d, f, r, hwf, hfe, hok => by
    simp only [resolve_3d_go] at hok
    cases h1 : mesh.pyGet "uris" with
    | error e => simp only [h1] at hok; exact Except.noConfusion hok
    | ok uOpt =>
      simp only [h1] at hok
      cases h2 : (if truthyOpt uOpt then uOpt.getD (.arr []) else .arr [mesh]).asArr with
      | error e => simp only [h2] at hok; exact Except.noConfusion hok
      | ok us =>
        simp only [h2] at hok
        cases h3 : uris_loop fs apath us d f with
        | error e => simp only [h3] at hok; exact Except.noConfusion hok
        | ok df =>
          obtain ⟨d1, f1⟩ := df
          simp only [h3] at hok
          obtain ⟨hwf', hfe'⟩ := uris_loop_inv fs apath us d f (d1, f1) hwf hfe h3
          exact resolve_3d_go_inv fs apath rest d1 f1 r hwf' hfe' hok

theorem resolve_3dplant_go_inv (fs : FS) (apath : String) :
    ∀ (models : List JValue) (d : MeshDict) (f : List String) (r : MeshDict × List String),
      meshWF fs d → formatsExact d f →
      resolve_3dplant_go fs apath models d f = .ok r →
      meshWF fs r.1 ∧ formatsExact r.1 r.2
  | [], d, f, r, hwf, hfe, hok => by
    simp only [resolve_3dplant_go] at hok
    rw [← Except.ok.inj hok]
    exact ⟨hwf, hfe⟩
  | model :: rest, d, f, r, hwf, hfe, hok => by
    simp only [resolve_3dplant_go] at hok
    cases h1 : (model.getItem "uri").bind JValue.asStr with
    | error e => simp only [h1] at hok; exact Except.noConfusion hok
    | ok uri =>
      simp only [h1] at hok
      cases hpe : fs.pexists (pjoin apath uri) with
      | false =>
        rw [hpe] at hok
        simp only [Bool.false_eq_true, if_false] at hok
        exact resolve_3dplant_go_inv fs apath rest d f r hwf hfe hok
      | true =>
        rw [hpe] at hok
        simp only [if_true] at hok
        cases hund : afterLastUnderscore uri with
        | none =>
          simp only [hund] at hok
          exact Except.noConfusion hok
        | some tail =>
          simp only [hund] at hok
          rw [if_pos (plant_contains uri tail hund)] at hok
          obtain ⟨hwf', hfe'⟩ := lods_formats_step fs hwf hfe hpe
            (pyUpper (takeBeforeDot tail))
          exact resolve_3dplant_go_inv fs apath rest _ _ r hwf' hfe' hok

theorem mesh_resolvers_inv (fs : FS) (apath : String) :
    (∀ asset_data lods fmts,
      resolve_3d fs apath asset_data = .ok (lods, fmts) →
      meshWF fs lods ∧ formatsExact lods fmts) ∧
    (∀ asset_data lods fmts,
      resolve_3dplant fs apath asset_data = .ok (lods, fmts) →
      meshWF fs lods ∧ formatsExact lods fmts) := by
  have hbase : formatsExact [] [] := ⟨List.nodup_nil, fun ext => by simp⟩
  have hbw : meshWF fs [] := by intro kv hkv; simp at hkv
  constructor
  · intro asset_data lods fmts hok
    simp only [resolve_3d] at hok
    cases h1 : asset_data.pyGet "meshes" with
    | error e => simp only [h1] at hok; exact Except.noConfusion hok
    | ok mOpt =>
      simp only [h1] at hok
      by_cases hk : asset_data.hasKey (if truthyOpt mOpt then "meshes" else "models") = true
      · rw [if_pos hk] at hok
        cases h2 : asset_data.getItem (if truthyOpt mOpt then "meshes" else "models") with
        | error e => simp only [h2] at hok; exact Except.noConfusion hok
        | ok v =>
          simp only [h2] at hok
          cases h3 : v.asArr with
          | error e => simp only [h3] at hok; exact Except.noConfusion hok
          | ok items =>
            simp only [h3] at hok
            exact resolve_3d_go_inv fs apath items [] [] (lods, fmts) hbw hbase hok
      · rw [if_neg hk] at hok
        have h := (Except.ok.inj hok).symm
        rw [Prod.mk.injEq] at h
        obtain ⟨hl, hf⟩ := h
        subst hl
        subst hf
        exact ⟨hbw, hbase⟩
  · intro asset_data lods fmts hok
    simp only [resolve_3dplant] at hok
    cases h1 : asset_data.getItem "models" with
    | error e => simp only [h1] at hok; exact Except.noConfusion hok
    | ok v =>
      simp only [h1] at hok
      cases h2 : v.asArr with
      | error e => simp only [h2] at hok; exact Except.noConfusion hok
      | ok models =>
        simp only [h2] at hok
        exact resolve_3dplant_go_inv fs apath models [] [] (lods, fmts) hbw hbase hok

/-- C6: for both resolvers, the formats list is duplicate-free and contains
exactly the dot-stripped extensions of the mesh files recorded in the lods
mapping, and every recorded mesh file exists on disk — so mesh files that do
not exist on disk contribute neither a format nor a lods entry. -/
theorem formats_are_recorded_extensions (fs : FS) (apath : String) :
    (∀ asset_data lods fmts,
      resolve_3d fs apath asset_data = .ok (lods, fmts) →
      meshWF fs lods ∧ formatsExact lods fmts) ∧
    (∀ asset_data lods fmts,
      resolve_3dplant fs apath asset_data = .ok (lods, fmts) →
      meshWF fs lods ∧ formatsExact lods fmts) :=
  mesh_resolvers_inv fs apath

theorem formats_are_recorded_extensions_witness :
    meshWF ⟨["ap/m_high.fbx"], fun _ => .null⟩ [("HIGH", ["ap/m_high.fbx"])] ∧
      formatsExact [("HIGH", ["ap/m_high.fbx"])] ["fbx"] :=
  (formats_are_recorded_extensions ⟨["ap/m_high.fbx"], fun _ => .null⟩ "ap").1
    (.obj [("meshes", .arr [.obj [("uri", .str "m_high.fbx")]])])
    [("HIGH", ["ap/m_high.fbx"])] ["fbx"] rfl

theorem wfTxMap_fields {m : JValue} (h : wfTxMap m = true) :
    ∃ u n r t c, (m.getItem "uri").bind JValue.asStr = .ok u ∧
      (m.getItem "name").bind JValue.asStr = .ok n ∧
      (m.getItem "resolution").bind JValue.asStr = .ok r ∧
      (m.getItem "type").bind JValue.asStr = .ok t ∧
      (m.getItem "colorSpace").bind JValue.asStr = .ok c := by
  unfold wfTxMap at h
  simp only [Bool.and_eq_true] at h
  obtain ⟨⟨⟨⟨h1, h2⟩, h3⟩, h4⟩, h5⟩ := h
  obtain ⟨u, hu⟩ := isOkStr_exists h1
  obtain ⟨n, hn⟩ := isOkStr_exists h2
  obtain ⟨r, hr⟩ := isOkStr_exists h3
  obtain ⟨t, ht⟩ := isOkStr_exists h4
  obtain ⟨c, hc⟩ := isOkStr_exists h5
  exact ⟨u, n, r, t, c, hu, hn, hr, ht, hc⟩

theorem resolve_3d_tx_maps_go_total (fs : FS) (apath : String) :
    ∀ (maps : List JValue) (acc : TxDict), maps.all wfTxMap = true →
      ∃ tx, resolve_3d_tx_maps_go fs apath maps acc = .ok tx
  | [], acc, _ => ⟨acc, rfl⟩
  | m :: rest, acc, hall => by
    rw [List.all_cons, Bool.and_eq_true] at hall
    obtain ⟨hm, hrest⟩ := hall
    obtain ⟨u, n, r, t, c, hu, hn, hr, ht, hc⟩ := wfTxMap_fields hm
    simp only [resolve_3d_tx_maps_go, hu]
    cases hpe : fs.pexists (pjoin apath u) with
    | true =>
      simp only [hn, hr, ht, hc, if_true]
      exact resolve_3d_tx_maps_go_total fs apath rest _ hrest
    | false =>
      simp only [Bool.false_eq_true, if_false]
      exact resolve_3d_tx_maps_go_total fs apath rest acc hrest

theorem gatherFormats_total (fs : FS) (apath : String) :
    ∀ (fmts : List JValue), fmts.all wfFormatEntry = true →
      ∃ ps, gatherFormats fs apath fmts = .ok ps
  | [], _ => ⟨[], rfl⟩
  | f :: rest, hall => by
    rw [List.all_cons, Bool.and_eq_true] at hall
    obtain ⟨hf, hrest⟩ := hall
    obtain ⟨u, hu⟩ := isOkStr_exists hf
    obtain ⟨ps, hps⟩ := gatherFormats_total fs apath rest hrest
    exact ⟨if fs.pexists (pjoin apath u) = true then pjoin apath u :: ps else ps,
      by simp only [gatherFormats, hu, hps]⟩

theorem comp_res_loop_total (fs : FS) (apath : String) :
    ∀ (rds : List JValue) (acc : List (String × List String)),
      rds.all wfResolution = true →
      ∃ acc', comp_res_loop fs apath rds acc = .ok acc'
  | [], acc, _ => ⟨acc, rfl⟩
  | rd :: rest, acc, hall => by
    rw [List.all_cons, Bool.and_eq_true] at hall
    obtain ⟨hrd, hrest⟩ := hall
    unfold wfResolution at hrd
    rw [Bool.and_eq_true] at hrd
    obtain ⟨hfmts, hres⟩ := hrd
    obtain ⟨fOpt, fmts, h1, h2, hallf⟩ := optListOk_exists hfmts
    obtain ⟨textures, h3⟩ := gatherFormats_total fs apath fmts hallf
    obtain ⟨r, hr⟩ := isOkStr_exists hres
    simp only [comp_res_loop, h1, h2, h3]
    cases hie : textures.isEmpty with
    | true =>
      simp only [if_true]
      exact comp_res_loop_total fs apath rest acc hrest
    | false =>
      simp only [Bool.false_eq_true, if_false, hr]
      exact comp_res_loop_total fs apath rest _ hrest

theorem comp_uris_loop_total (fs : FS) (apath : String) :
    ∀ (uris : List JValue) (acc : List (String × List String)),
      uris.all wfCompUri = true →
      ∃ acc', comp_uris_loop fs apath uris acc = .ok acc'
  | [], acc, _ => ⟨acc, rfl⟩
  | u :: rest, acc, hall => by
    rw [List.all_cons, Bool.and_eq_true] at hall
    obtain ⟨hu, hrest⟩ := hall
    obtain ⟨rOpt, rds, h1, h2, hallr⟩ := optListOk_exists hu
    obtain ⟨acc1, h3⟩ := comp_res_loop_total fs apath rds acc hallr
    simp only [comp_uris_loop, h1, h2, h3]
    exact comp_uris_loop_total fs apath rest acc1 hrest

theorem resolve_3d_tx_components_go_total (fs : FS) (apath : String) :
    ∀ (components : List JValue) (acc : TxDict),
      components.all wfComponent = true →
      ∃ tx, resolve_3d_tx_components_go fs apath components acc = .ok tx
  | [], acc, _ => ⟨acc, rfl⟩
  | c :: rest, acc, hall => by
    rw [List.all_cons, Bool.and_eq_true] at hall
    obtain ⟨hc, hrest⟩ := hall
    unfold wfComponent at hc
    simp only [Bool.and_eq_true] at hc
    obtain ⟨⟨⟨huris, hname⟩, hty⟩, hcs⟩ := hc
    obtain ⟨uOpt, uris, h1, h2, hallu⟩ := optListOk_exists huris
    obtain ⟨texture_paths, h3⟩ := comp_uris_loop_total fs apath uris [] hallu
    obtain ⟨n, hn⟩ := isOkStr_exists hname
    obtain ⟨t, htv⟩ := isOkStr_exists hty
    obtain ⟨cs, hcv⟩ := isOkStr_exists hcs
    simp only [resolve_3d_tx_components_go, h1, h2, h3]
    cases hie : texture_paths.isEmpty with
    | true =>
      simp only [if_true]
      exact resolve_3d_tx_components_go_total fs apath rest acc hrest
    | false =>
      simp only [Bool.false_eq_true, if_false, htv, hcv, hn]
      exact resolve_3d_tx_components_go_total fs apath rest _ hrest

theorem resolve_3d_tx_total (fs : FS) (apath : String) {adata : JValue}
    (hmaps : optListOk adata "maps" wfTxMap = true)
    (hcomps : optListOk adata "components" wfComponent = true) :
    ∃ tx, resolve_3d_tx fs apath adata = .ok tx := by
  obtain ⟨mOpt, maps, h1, h2, hallm⟩ := optListOk_exists hmaps
  obtain ⟨tx1, h3⟩ := resolve_3d_tx_maps_go_total fs apath maps [] hallm
  have h3' : resolve_3d_tx_maps fs apath maps = .ok tx1 := h3
  simp only [resolve_3d_tx, h1, h2, h3']
  cases hie : tx1.isEmpty with
  | false =>
    simp only [Bool.false_eq_true, if_false]
    exact ⟨tx1, rfl⟩
  | true =>
    simp only [if_true]
    obtain ⟨cOpt, comps, h4, h5, hallc⟩ := optListOk_exists hcomps
    obtain ⟨tx2, h6⟩ := resolve_3d_tx_components_go_total fs apath comps [] hallc
    simp only [h4, h5]
    exact ⟨tx2, h6⟩

theorem uris_loop_total (fs : FS) (apath : String) :
    ∀ (us : List JValue) (d : MeshDict) (f : List String),
      us.all (fun u => hasStrField u "uri") = true →
      ∃ r, uris_loop fs apath us d f = .ok r
  | [], d, f, _ => ⟨(d, f), rfl⟩
  | u :: rest, d, f, hall => by
    rw [List.all_cons, Bool.and_eq_true] at hall
    obtain ⟨hu, hrest⟩ := hall
    obtain ⟨uri, huri⟩ := isOkStr_exists hu
    simp only [uris_loop, huri]
    cases hpe : fs.pexists (pjoin apath uri) with
    | false =>
      simp only [Bool.false_eq_true, if_false]
      exact uris_loop_total fs apath rest d f hrest
    | true =>
      simp only [if_true]
      cases hm : findFirstLod (pyLower uri).data with
      | some m =>
        exact uris_loop_total fs apath rest _ _ hrest
      | none =>
        exact uris_loop_total fs apath rest d f hrest

theorem wfMesh_cases {m : JValue} (h : wfMesh m = true) :
    ∃ uOpt, m.pyGet "uris" = .ok uOpt ∧
      ∃ us, (if truthyOpt uOpt then uOpt.getD (.arr []) else .arr [m]).asArr = .ok us ∧
        us.all (fun u => hasStrField u "uri") = true := by
  unfold wfMesh at h
  cases h1 : m.pyGet "uris" with
  | error e =>
    simp only [h1] at h
    exact Bool.noConfusion h
  | ok uOpt =>
    simp only [h1] at h
    refine ⟨uOpt, rfl, ?_⟩
    by_cases ht : truthyOpt uOpt = true
    · rw [if_pos ht] at h ⊢
      cases h2 : (uOpt.getD (.arr [])).asArr with
      | error e =>
        simp only [h2] at h
        exact Bool.noConfusion h
      | ok us =>
        simp only [h2] at h
        exact ⟨us, rfl, h⟩
    · rw [if_neg ht] at h ⊢
      refine ⟨[m], rfl, ?_⟩
      simpa using h

theorem resolve_3d_go_total (fs : FS) (apath : String) :
    ∀ (items : List JValue) (d : MeshDict) (f : List String),
      items.all wfMesh = true →
      ∃ r, resolve_3d_go fs apath items d f = .ok r
  | [], d, f, _ => ⟨(d, f), rfl⟩
  | mesh :: rest, d, f, hall => by
    rw [List.all_cons, Bool.and_eq_true] at hall
    obtain ⟨hm, hrest⟩ := hall
    obtain ⟨uOpt, h1, us, h2, hallus⟩ := wfMesh_cases hm
    obtain ⟨r1, h3⟩ := uris_loop_total fs apath us d f hallus
    obtain ⟨d1, f1⟩ := r1
    simp only [resolve_3d_go, h1, h2, h3]
    exact resolve_3d_go_total fs apath rest d1 f1 hrest

theorem resolve_3d_total (fs : FS) (apath : String) {adata : JValue}
    (h : wf3dMeshes adata = true) :
    ∃ r, resolve_3d fs apath adata = .ok r := by
  unfold wf3dMeshes at h
  unfold resolve_3d
  cases h1 : adata.pyGet "meshes" with
  | error e =>
    simp only [h1] at h
    exact Bool.noConfusion h
  | ok mOpt =>
    simp only [h1] at h ⊢
    by_cases hk : adata.hasKey (if truthyOpt mOpt then "meshes" else "models") = true
    · rw [if_pos hk] at h ⊢
      cases h2 : adata.getItem (if truthyOpt mOpt then "meshes" else "models") with
      | error e =>
        simp only [h2] at h
        exact Bool.noConfusion h
      | ok v =>
        simp only [h2] at h ⊢
        cases h3 : v.asArr with
        | error e =>
          simp only [h3] at h
          exact Bool.noConfusion h
        | ok items =>
          simp only [h3] at h ⊢
          exact resolve_3d_go_total fs apath items [] [] h
    · rw [if_neg hk]
      exact ⟨([], []), rfl⟩

theorem resolve_3dplant_tx_go_total (fs : FS) (apath : String) :
    ∀ (maps : List JValue) (acc : TxDict), maps.all wfTxMap = true →
      ∃ tx, resolve_3dplant_tx_go fs apath maps acc = .ok tx
  | [], acc, _ => ⟨acc, rfl⟩
  | m :: rest, acc, hall => by
    rw [List.all_cons, Bool.and_eq_true] at hall
    obtain ⟨hm, hrest⟩ := hall
    obtain ⟨u, n, r, t, c, hu, hn, hr, ht, hc⟩ := wfTxMap_fields hm
    simp only [resolve_3dplant_tx_go, hu]
    cases hpe : fs.pexists (pjoin apath u) with
    | true =>
      simp only [hr, hn, ht, hc, if_true]
      exact resolve_3dplant_tx_go_total fs apath rest _ hrest
    | false =>
      simp only [Bool.false_eq_true, if_false]
      exact resolve_3dplant_tx_go_total fs apath rest acc hrest

theorem resolve_3dplant_tx_total (fs : FS) (apath : String) {adata : JValue}
    (h : reqList adata "maps" wfTxMap = true) :
    ∃ tx, resolve_3dplant_tx fs apath adata = .ok tx := by
  obtain ⟨maps, h1, hall⟩ := reqList_exists h
  unfold resolve_3dplant_tx
  cases h2 : adata.getItem "maps" with
  | error e =>
    rw [h2] at h1
    simp only [Except.bind] at h1
    exact Except.noConfusion h1
  | ok mapsV =>
    rw [h2] at h1
    simp only [Except.bind] at h1
    show ∃ tx, (match mapsV.asArr with
      | .error e => Except.error e
      | .ok maps => resolve_3dplant_tx_go fs apath maps []) = Except.ok tx
    rw [h1]
    exact resolve_3dplant_tx_go_total fs apath maps [] hall

theorem wfPlantModel_cases {fs : FS} {apath : String} {m : JValue}
    (h : (match (m.getItem "uri").bind JValue.asStr with
      | .error _ => false
      | .ok u => !(fs.pexists (pjoin apath u)) || (afterLastUnderscore u).isSome) = true) :
    ∃ u, (m.getItem "uri").bind JValue.asStr = .ok u ∧
      (fs.pexists (pjoin apath u) = true → (afterLastUnderscore u).isSome = true) := by
  cases h1 : (m.getItem "uri").bind JValue.asStr with
  | error e =>
    rw [h1] at h
    exact Bool.noConfusion h
  | ok u =>
    simp only [h1] at h
    refine ⟨u, rfl, ?_⟩
    intro hpe
    rw [hpe] at h
    simpa using h

theorem resolve_3dplant_total (fs : FS) (apath : String) {adata : JValue}
    (h : reqList adata "models"
      (fun m => match (m.getItem "uri").bind JValue.asStr with
        | .error _ => false
        | .ok u => !(fs.pexists (pjoin apath u)) || (afterLastUnderscore u).isSome) = true) :
    ∃ r, resolve_3dplant fs apath adata = .ok r := by
  obtain ⟨models, h1, hall⟩ := reqList_exists h
  unfold resolve_3dplant
  cases h2 : adata.getItem "models" with
  | error e =>
    rw [h2] at h1
    simp only [Except.bind] at h1
    exact Except.noConfusion h1
  | ok modelsV =>
    rw [h2] at h1
    simp only [Except.bind] at h1
    show ∃ r, (match modelsV.asArr with
      | .error e => Except.error e
      | .ok models => resolve_3dplant_go fs apath models [] []) = Except.ok r
    rw [h1]
    refine resolve_3dplant_go_total fs apath models [] [] ?_
    intro m hm
    exact wfPlantModel_cases (List.all_eq_true.mp hall m hm)

/-- C2: for every asset of type `"3d"` or `"3dplant"` whose sidecar
`<id>.json` exists and has the corresponding well-shaped sidecar form
(`wf3d` / `wfPlant`, the shapes the two resolver families read),
`resolve_assets` returns the uniform `(textures, lods, formats)` triple:
a texture dictionary whose per-resolution lists are non-empty and hold only
existing files, a LOD dictionary whose file lists are non-empty and hold only
existing files, and a format list — the same structure for both heterogeneous
sidecar shapes. -/
theorem resolve_assets_uniform (fs : FS) (asset_type asset_id apath : String)
    (hty : asset_type = "3d" ∨ asset_type = "3dplant")
    (hex : fs.pexists (pjoin apath (asset_id ++ ".json")) = true)
    (hwf : (if asset_type = "3d"
        then wf3d (fs.json (pjoin apath (asset_id ++ ".json")))
        else wfPlant fs apath (fs.json (pjoin apath (asset_id ++ ".json")))) = true) :
    ∃ tx lods fmts,
      resolve_assets fs asset_type asset_id apath = .ok (tx, lods, fmts) ∧
      txWF fs tx ∧ meshWF fs lods := by
  rcases hty with hty | hty
  · subst hty
    rw [if_pos rfl] at hwf
    unfold wf3d at hwf
    simp only [Bool.and_eq_true] at hwf
    obtain ⟨⟨hmaps, hcomps⟩, hmesh⟩ := hwf
    obtain ⟨tx, htx⟩ := resolve_3d_tx_total fs apath hmaps hcomps
    obtain ⟨r, hlf⟩ := resolve_3d_total fs apath hmesh
    obtain ⟨lods, fmts⟩ := r
    refine ⟨tx, lods, fmts, ?_, ?_, ?_⟩
    · unfold resolve_assets
      rw [if_pos hex, if_pos rfl]
      simp only [htx, hlf]
    · exact (tx_resolvers_wf fs apath).1 _ tx htx
    · exact ((mesh_resolvers_inv fs apath).1 _ lods fmts hlf).1
  · subst hty
    rw [if_neg (by decide)] at hwf
    unfold wfPlant at hwf
    simp only [Bool.and_eq_true] at hwf
    obtain ⟨hmaps, hmodels⟩ := hwf
    obtain ⟨tx, htx⟩ := resolve_3dplant_tx_total fs apath hmaps
    obtain ⟨r, hlf⟩ := resolve_3dplant_total fs apath hmodels
    obtain ⟨lods, fmts⟩ := r
    refine ⟨tx, lods, fmts, ?_, ?_, ?_⟩
    · unfold resolve_assets
      rw [if_pos hex, if_neg (by decide), if_pos rfl]
      simp only [htx, hlf]
    · exact (tx_resolvers_wf fs apath).2 _ tx htx
    · exact ((mesh_resolvers_inv fs apath).2 _ lods fmts hlf).1

theorem resolve_assets_uniform_witness :
    ∃ tx lods fmts,
      resolve_assets ⟨["ap/a1.json", "ap/m_lod2.abc"],
        fun _ => .obj [("meshes", .arr [.obj [("uri", .str "m_lod2.abc")]])]⟩
        "3d" "a1" "ap" = .ok (tx, lods, fmts) ∧
      txWF ⟨["ap/a1.json", "ap/m_lod2.abc"],
        fun _ => .obj [("meshes", .arr [.obj [("uri", .str "m_lod2.abc")]])]⟩ tx ∧
      meshWF ⟨["ap/a1.json", "ap/m_lod2.abc"],
        fun _ => .obj [("meshes", .arr [.obj [("uri", .str "m_lod2.abc")]])]⟩ lods :=
  resolve_assets_uniform
    ⟨["ap/a1.json", "ap/m_lod2.abc"],
      fun _ => .obj [("meshes", .arr [.obj [("uri", .str "m_lod2.abc")]])]⟩
    "3d" "a1" "ap" (Or.inl rfl) (by decide) (by decide)

theorem build_entry_key {fs : FS} {library_path : String} {data : JValue}
    {k : String} {meta : AssetMeta}
    (h : build_entry fs library_path data = .ok (k, meta)) :
    k = meta.type ++ "::" ++ meta.name ++ "::" ++ meta.id ∧
    ∃ raw, (data.getItem "name").bind JValue.asStr = .ok raw ∧
      meta.name = normalizeName raw := by
  unfold build_entry at h
  cases h1 : (data.getItem "name").bind JValue.asStr with
  | error e => simp only [h1] at h; exact Except.noConfusion h
  | ok rawName =>
    simp only [h1] at h
    cases h2 : (data.getItem "type").bind JValue.asStr with
    | error e => simp only [h2] at h; exact Except.noConfusion h
    | ok ty =>
      simp only [h2] at h
      cases h3 : (data.getItem "id").bind JValue.asStr with
      | error e => simp only [h3] at h; exact Except.noConfusion h
      | ok aid =>
        simp only [h3] at h
        cases h4 : (data.getItem "path").bind JValue.asArr with
        | error e => simp only [h4] at h; exact Except.noConfusion h
        | ok pathParts =>
          simp only [h4] at h
          cases h5 : asStrList pathParts with
          | error e => simp only [h5] at h; exact Except.noConfusion h
          | ok parts =>
            simp only [h5] at h
            cases h6 : (data.getItem "preview").bind JValue.asArr with
            | error e => simp only [h6] at h; exact Except.noConfusion h
            | ok pv =>
              simp only [h6] at h
              cases h7 : pv.getLast? with
              | none => simp only [h7] at h; exact Except.noConfusion h
              | some lastV =>
                simp only [h7] at h
                cases h8 : lastV.asStr with
                | error e => simp only [h8] at h; exact Except.noConfusion h
                | ok pvs =>
                  simp only [h8] at h
                  cases h9 : resolve_assets fs ty aid
                      (pjoin (pjoin library_path "Downloaded")
                        (String.intercalate "/" parts)) with
                  | error e => simp only [h9] at h; exact Except.noConfusion h
                  | ok r =>
                    obtain ⟨tx, lods, fmts⟩ := r
                    simp only [h9] at h
                    cases h10 : data.getItem "tags" with
                    | error e => simp only [h10] at h; exact Except.noConfusion h
                    | ok tags =>
                      simp only [h10] at h
                      have hp := Except.ok.inj h
                      rw [Prod.mk.injEq] at hp
                      obtain ⟨hk, hm⟩ := hp
                      subst hm
                      subst hk
                      exact ⟨rfl, rawName, rfl, rfl⟩

theorem dictAssign_mem {β : Type} :
    ∀ (d : List (String × β)) (k : String) (v : β) (kv : String × β),
      kv ∈ dictAssign d k v → kv = (k, v) ∨ kv ∈ d
  | [], k, v, kv, h => by
    simp only [dictAssign, List.mem_singleton] at h
    exact Or.inl h
  | (k', v') :: rest, k, v, kv, h => by
    simp only [dictAssign] at h
    split at h
    · rcases List.mem_cons.mp h with h' | h'
      · exact Or.inl h'
      · exact Or.inr (List.mem_cons_of_mem _ h')
    · rcases List.mem_cons.mp h with h' | h'
      · subst h'
        exact Or.inr (List.mem_cons_self _ _)
      · rcases dictAssign_mem rest k v kv h' with h'' | h''
        · exact Or.inl h''
        · exact Or.inr (List.mem_cons_of_mem _ h'')

theorem dictAssign_self_mem {β : Type} :
    ∀ (d : List (String × β)) (k : String) (v : β), (k, v) ∈ dictAssign d k v
  | [], k, v => List.mem_singleton.mpr rfl
  | (k', v') :: rest, k, v => by
    simp only [dictAssign]
    split
    · exact List.mem_cons_self _ _
    · exact List.mem_cons_of_mem _ (dictAssign_self_mem rest k v)

theorem dictAssign_keyMem {β : Type} :
    ∀ (d : List (String × β)) (k k2 : String) (v2 : β),
      (∃ m, (k, m) ∈ d) → ∃ m, (k, m) ∈ dictAssign d k2 v2
  | [], k, k2, v2, h => by
    obtain ⟨m, hm⟩ := h
    simp at hm
  | (k', v') :: rest, k, k2, v2, h => by
    obtain ⟨m, hm⟩ := h
    simp only [dictAssign]
    split
    · next heq =>
      rcases List.mem_cons.mp hm with h' | h'
      · rw [Prod.mk.injEq] at h'
        obtain ⟨hk, _⟩ := h'
        subst heq
        exact ⟨v2, by rw [hk]; exact List.mem_cons_self _ _⟩
      · exact ⟨m, List.mem_cons_of_mem _ h'⟩
    · rcases List.mem_cons.mp hm with h' | h'
      · rw [Prod.mk.injEq] at h'
        obtain ⟨hk, hv⟩ := h'
        subst hk
        subst hv
        exact ⟨m, List.mem_cons_self _ _⟩
      · obtain ⟨m2, hm2⟩ := dictAssign_keyMem rest k k2 v2 ⟨m, h'⟩
        exact ⟨m2, List.mem_cons_of_mem _ hm2⟩

theorem build_go_mem (fs : FS) (library_path : String) :
    ∀ (arr : List JValue) (acc d : MegaDict),
      build_go fs library_path arr acc = .ok d →
      ∀ kv ∈ d, kv ∈ acc ∨ ∃ j ∈ arr, build_entry fs library_path j = .ok kv
  | [], acc, d, hok, kv, hkv => by
    simp only [build_go] at hok
    rw [← Except.ok.inj hok] at hkv
    exact Or.inl hkv
  | j :: rest, acc, d, hok, kv, hkv => by
    simp only [build_go] at hok
    cases h1 : build_entry fs library_path j with
    | error e => simp only [h1] at hok; exact Except.noConfusion hok
    | ok km =>
      simp only [h1] at hok
      rcases build_go_mem fs library_path rest (dictAssign acc km.1 km.2) d hok kv hkv with
        h' | ⟨j', hj', he⟩
      · rcases dictAssign_mem acc km.1 km.2 kv h' with h'' | h''
        · refine Or.inr ⟨j, List.mem_cons_self _ _, ?_⟩
          rw [h'']
          rw [show ((km.1, km.2) : String × AssetMeta) = km from rfl]
          exact h1
        · exact Or.inl h''
      · exact Or.inr ⟨j', List.mem_cons_of_mem _ hj', he⟩

theorem build_go_keyMem (fs : FS) (library_path : String) :
    ∀ (arr : List JValue) (acc d : MegaDict),
      build_go fs library_path arr acc = .ok d →
      (∀ k, (∃ m, (k, m) ∈ acc) → ∃ m, (k, m) ∈ d) ∧
      (∀ j ∈ arr, ∃ km, build_entry fs library_path j = .ok km ∧ ∃ m2, (km.1, m2) ∈ d)
  | [], acc, d, hok => by
    simp only [build_go] at hok
    rw [← Except.ok.inj hok]
    exact ⟨fun k h => h, fun j hj => by simp at hj⟩
  | j :: rest, acc, d, hok => by
    simp only [build_go] at hok
    cases h1 : build_entry fs library_path j with
    | error e => simp only [h1] at hok; exact Except.noConfusion hok
    | ok km =>
      simp only [h1] at hok
      obtain ⟨hpres, hper⟩ :=
        build_go_keyMem fs library_path rest (dictAssign acc km.1 km.2) d hok
      constructor
      · intro k hk
        exact hpres k (dictAssign_keyMem acc k km.1 km.2 hk)
      · intro j' hj'
        rcases List.mem_cons.mp hj' with h' | h'
        · subst h'
          refine ⟨km, h1, ?_⟩
          exact hpres km.1 ⟨km.2, dictAssign_self_mem acc km.1 km.2⟩
        · exact hper j' h'

/-- C4: the normalized index is keyed by the composite string
`type::name::id`: every stored record's key is built from its own type,
normalized name and id, the stored name is the manifest name with whitespace
runs replaced by underscores, and every manifest entry's record reaches the
index under that key. -/
theorem composite_keys (fs : FS) (library_path : String) (arr : List JValue)
    (d : MegaDict)
    (hfile : fs.pexists (assetsDataPath library_path) = true)
    (harr : (fs.json (assetsDataPath library_path)).asArr = .ok arr)
    (hok : build_megascans_data fs library_path = .ok d) :
    (∀ kv ∈ d, kv.1 = kv.2.type ++ "::" ++ kv.2.name ++ "::" ++ kv.2.id ∧
      ∃ j ∈ arr, build_entry fs library_path j = .ok kv ∧
        ∃ raw, (j.getItem "name").bind JValue.asStr = .ok raw ∧
          kv.2.name = normalizeName raw) ∧
    (∀ j ∈ arr, ∃ km, build_entry fs library_path j = .ok km ∧
      km.1 = km.2.type ++ "::" ++ km.2.name ++ "::" ++ km.2.id ∧
      ∃ m2, (km.1, m2) ∈ d) := by
  unfold build_megascans_data at hok
  rw [if_pos hfile] at hok
  simp only [harr] at hok
  constructor
  · intro kv hkv
    rcases build_go_mem fs library_path arr [] d hok kv hkv with h | ⟨j, hj, he⟩
    · simp at h
    · obtain ⟨k, meta⟩ := kv
      obtain ⟨hkey, raw, hraw, hname⟩ := build_entry_key he
      exact ⟨hkey, j, hj, he, raw, hraw, hname⟩
  · intro j hj
    obtain ⟨km, he, hmem⟩ := (build_go_keyMem fs library_path arr [] d hok).2 j hj
    obtain ⟨k, meta⟩ := km
    obtain ⟨hkey, _⟩ := build_entry_key he
    exact ⟨(k, meta), he, hkey, hmem⟩

theorem composite_keys_witness :
    "3d::Nordic_Rock::ab12" = "3d" ++ "::" ++ "Nordic_Rock" ++ "::" ++ "ab12" ∧
    ∃ j ∈ [JValue.obj [("name", .str "Nordic Rock"), ("type", .str "3d"),
        ("id", .str "ab12"), ("path", .arr [.str "3d", .str "nordic"]),
        ("preview", .arr [.str "prev.png"]),
        ("tags", .arr [])]],
      build_entry
        ⟨["L/Downloaded/assetsData.json", "L/Downloaded/3d/nordic/ab12.json"],
          fun p => if p = "L/Downloaded/assetsData.json" then
            .arr [.obj [("name", .str "Nordic Rock"), ("type", .str "3d"),
              ("id", .str "ab12"), ("path", .arr [.str "3d", .str "nordic"]),
              ("preview", .arr [.str "prev.png"]),
              ("tags", .arr [])]]
          else .obj []⟩ "L" j =
        .ok ("3d::Nordic_Rock::ab12",
          ⟨"Nordic_Rock", "ab12", "L/Downloaded/3d/nordic", "3d", [], [], [],
            "L/Downloaded/3d/nordic/prev.png", .arr []⟩) ∧
      ∃ raw, (j.getItem "name").bind JValue.asStr = .ok raw ∧
        "Nordic_Rock" = normalizeName raw :=
  (composite_keys
    ⟨["L/Downloaded/assetsData.json", "L/Downloaded/3d/nordic/ab12.json"],
      fun p => if p = "L/Downloaded/assetsData.json" then
        .arr [.obj [("name", .str "Nordic Rock"), ("type", .str "3d"),
          ("id", .str "ab12"), ("path", .arr [.str "3d", .str "nordic"]),
          ("preview", .arr [.str "prev.png"]),
          ("tags", .arr [])]]
      else .obj []⟩ "L"
    [JValue.obj [("name", .str "Nordic Rock"), ("type", .str "3d"),
      ("id", .str "ab12"), ("path", .arr [.str "3d", .str "nordic"]),
      ("preview", .arr [.str "prev.png"]),
      ("tags", .arr [])]]
    [("3d::Nordic_Rock::ab12",
      ⟨"Nordic_Rock", "ab12", "L/Downloaded/3d/nordic", "3d", [], [], [],
        "L/Downloaded/3d/nordic/prev.png", .arr []⟩)]
    rfl rfl rfl).1
    ("3d::Nordic_Rock::ab12",
      ⟨"Nordic_Rock", "ab12", "L/Downloaded/3d/nordic", "3d", [], [], [],
        "L/Downloaded/3d/nordic/prev.png", .arr []⟩)
    (List.mem_singleton.mpr rfl)
